import Mathlib

/-!
Verification development for the tdom templating core.

The embedding follows the repository's Python sources:
`src/tdom/nodes.py` (node model and serializer), `src/tdom/async_processor.py`
(concurrent resolution engine), `src/tdom/context.py` (ambient context slots),
and `src/tdom/utils.py` (template cache key).  Modules of the repository that
are imported by those files but absent from `src/` (`escaping.py`, `parser.py`,
`placeholders.py`, `processor.py`, `callables.py`) are modelled from the
specification; each such definition carries a doc comment starting with
`Modelled from the spec:`.

Python exceptions are modelled by `Except`; machine-level concerns (hashing)
use Lean's `hash`; concurrency is modelled by deterministic fan-out/fan-in
with an explicit treatment of completion order where the claims require it.
-/

namespace Tdom

/-- Model of a Python string value flowing through the node pipeline: the
character data together with whether it is a `markupsafe.Markup` safe-markup
string (a `str` subclass carrying an `__html__` method). -/
structure SStr where
  text : String
  safe : Bool
deriving DecidableEq, Repr

/-- Modelled from the spec: the external body-text escaping primitive
(`escape_html_text` from `escaping.py`, which is not in `src/`): a pure total
function over plain strings, escaping the HTML-significant characters in the
way `markupsafe.escape` does. -/
def escape_char (c : Char) : String :=
  if c = '&' then "&amp;"
  else if c = '<' then "&lt;"
  else if c = '>' then "&gt;"
  else if c = '"' then "&#34;"
  else if c = '\x27' then "&#39;"
  else String.singleton c

/-- Modelled from the spec: plain-string body-text escaping, characterwise. -/
def escape_html_text_plain (s : String) : String :=
  String.join (s.toList.map escape_char)

/-- Modelled from the spec: `escape_html_text` applied to a value that may be
safe markup — safe-markup strings pass through without re-escaping (case 7 of
the normalizer: "wrapped as Text without re-escaping"), plain strings are
escaped for body-text context. -/
def escape_html_text (s : SStr) : String :=
  if s.safe then s.text else escape_html_text_plain s.text

/-- Modelled from the spec: the external comment escaping primitive
(`escape_html_comment`): the content must not prematurely close the comment,
so the closing sequence is broken. -/
def escape_html_comment_chars : List Char → List Char
  | '-' :: '-' :: '>' :: rest => '-' :: '-' :: '&' :: 'g' :: 't' :: ';' :: escape_html_comment_chars rest
  | c :: rest => c :: escape_html_comment_chars rest
  | [] => []

/-- Modelled from the spec: comment-safe escaping, total over any string. -/
def escape_html_comment (s : String) : String :=
  String.mk (escape_html_comment_chars s.toList)

/-- Modelled from the spec: the external script-body escaping primitive
(`escape_html_script`): raw-text bodies are opaque blocks, so ordinary
characters (e.g. `a < b`) are left alone and only a premature
`</script` close sequence is broken. -/
def escape_html_script_chars : List Char → List Char
  | '<' :: '/' :: 's' :: 'c' :: 'r' :: 'i' :: 'p' :: 't' :: rest =>
    '<' :: '\\' :: '/' :: 's' :: 'c' :: 'r' :: 'i' :: 'p' :: 't' :: escape_html_script_chars rest
  | c :: rest => c :: escape_html_script_chars rest
  | [] => []

/-- Modelled from the spec: script-body bulk escaping, total over any string. -/
def escape_html_script (s : String) : String :=
  String.mk (escape_html_script_chars s.toList)

/-- Modelled from the spec: the external style-body escaping primitive
(`escape_html_style`): like the script primitive but for a premature
`</style` close sequence. -/
def escape_html_style_chars : List Char → List Char
  | '<' :: '/' :: 's' :: 't' :: 'y' :: 'l' :: 'e' :: rest =>
    '<' :: '\\' :: '/' :: 's' :: 't' :: 'y' :: 'l' :: 'e' :: escape_html_style_chars rest
  | c :: rest => c :: escape_html_style_chars rest
  | [] => []

/-- Modelled from the spec: style-body bulk escaping, total over any string. -/
def escape_html_style (s : String) : String :=
  String.mk (escape_html_style_chars s.toList)

/-- The fixed void-element set (`VOID_ELEMENTS` in `nodes.py`). -/
def VOID_ELEMENTS : List String :=
  ["area", "base", "br", "col", "embed", "hr", "img", "input", "link", "meta",
   "param", "source", "track", "wbr"]

/-- The fixed raw-text set (`CDATA_CONTENT_ELEMENTS` in `nodes.py`). -/
def CDATA_CONTENT_ELEMENTS : List String := ["script", "style"]

/-- The output tree (`Node` and its subclasses in `nodes.py`): Text, Comment,
DocumentType, Fragment and Element.  Attributes are an ordered mapping from
name to an optional string value, children an ordered sequence. -/
inductive Node where
  | text (s : SStr)
  | comment (t : String)
  | doctype (t : String)
  | fragment (children : List Node)
  | element (tag : String) (attrs : List (String × Option String)) (children : List Node)
deriving Repr

mutual
/-- Decidable equality for `Node` (spelled out because the nested `List Node`
occurrence defeats automatic derivation). -/
def nodeDecEq : (a b : Node) → Decidable (a = b)
  | .text s1, .text s2 =>
    match decEq s1 s2 with
    | isTrue h => isTrue (by rw [h])
    | isFalse h => isFalse (by simp [h])
  | .comment t1, .comment t2 =>
    match decEq t1 t2 with
    | isTrue h => isTrue (by rw [h])
    | isFalse h => isFalse (by simp [h])
  | .doctype t1, .doctype t2 =>
    match decEq t1 t2 with
    | isTrue h => isTrue (by rw [h])
    | isFalse h => isFalse (by simp [h])
  | .fragment c1, .fragment c2 =>
    match nodeListDecEq c1 c2 with
    | isTrue h => isTrue (by rw [h])
    | isFalse h => isFalse (by simp [h])
  | .element tag1 a1 c1, .element tag2 a2 c2 =>
    match decEq tag1 tag2, decEq a1 a2, nodeListDecEq c1 c2 with
    | isTrue h1, isTrue h2, isTrue h3 => isTrue (by rw [h1, h2, h3])
    | isFalse h1, _, _ => isFalse (by simp [h1])
    | _, isFalse h2, _ => isFalse (by simp [h2])
    | _, _, isFalse h3 => isFalse (by simp [h3])
  | .text _, .comment _ => isFalse (by simp)
  | .text _, .doctype _ => isFalse (by simp)
  | .text _, .fragment _ => isFalse (by simp)
  | .text _, .element _ _ _ => isFalse (by simp)
  | .comment _, .text _ => isFalse (by simp)
  | .comment _, .doctype _ => isFalse (by simp)
  | .comment _, .fragment _ => isFalse (by simp)
  | .comment _, .element _ _ _ => isFalse (by simp)
  | .doctype _, .text _ => isFalse (by simp)
  | .doctype _, .comment _ => isFalse (by simp)
  | .doctype _, .fragment _ => isFalse (by simp)
  | .doctype _, .element _ _ _ => isFalse (by simp)
  | .fragment _, .text _ => isFalse (by simp)
  | .fragment _, .comment _ => isFalse (by simp)
  | .fragment _, .doctype _ => isFalse (by simp)
  | .fragment _, .element _ _ _ => isFalse (by simp)
  | .element _ _ _, .text _ => isFalse (by simp)
  | .element _ _ _, .comment _ => isFalse (by simp)
  | .element _ _ _, .doctype _ => isFalse (by simp)
  | .element _ _ _, .fragment _ => isFalse (by simp)

/-- Decidable equality for lists of nodes. -/
def nodeListDecEq : (a b : List Node) → Decidable (a = b)
  | [], [] => isTrue rfl
  | [], _ :: _ => isFalse (by simp)
  | _ :: _, [] => isFalse (by simp)
  | a :: as, b :: bs =>
    match nodeDecEq a b, nodeListDecEq as bs with
    | isTrue h1, isTrue h2 => isTrue (by rw [h1, h2])
    | isFalse h1, _ => isFalse (by simp [h1])
    | _, isFalse h2 => isFalse (by simp [h2])
end

instance : DecidableEq Node := nodeDecEq

/-- Decidable equality for `Except` results, used to evaluate concrete runs. -/
instance instDecEqExcept {ε α : Type} [DecidableEq ε] [DecidableEq α] :
    DecidableEq (Except ε α)
  | .ok a, .ok b =>
    match decEq a b with
    | isTrue h => isTrue (by rw [h])
    | isFalse h => isFalse (by simp [h])
  | .error a, .error b =>
    match decEq a b with
    | isTrue h => isTrue (by rw [h])
    | isFalse h => isFalse (by simp [h])
  | .ok _, .error _ => isFalse (by simp)
  | .error _, .ok _ => isFalse (by simp)

/-- Structural induction principle for `Node` giving a pointwise hypothesis on
children lists. -/
theorem Node.induction (P : Node → Prop)
    (htext : ∀ s, P (.text s))
    (hcomment : ∀ t, P (.comment t))
    (hdoctype : ∀ t, P (.doctype t))
    (hfragment : ∀ cs, (∀ c ∈ cs, P c) → P (.fragment cs))
    (helement : ∀ tag attrs cs, (∀ c ∈ cs, P c) → P (.element tag attrs cs)) :
    ∀ n, P n :=
  @Node.rec P (fun cs => ∀ c ∈ cs, P c)
    htext hcomment hdoctype hfragment helement
    (by intro c h; exact absurd h (List.not_mem_nil c))
    (by intro hd tl hhd htl c hc
        rcases List.mem_cons.mp hc with h | h
        · exact h ▸ hhd
        · exact htl c h)

/-- The error universe of the core: Python `ValueError`, `TypeError`, the
distinct usage-mode error the spec demands for pending values met by the
sequential engine, and `fuelOut` for exhaustion of the recursion budget the
shallow embedding threads through the resolution engines. -/
inductive Err where
  | valueError (msg : String)
  | typeError (msg : String)
  | usageError (msg : String)
  | fuelOut
deriving DecidableEq, Repr

/-- `format_attributes` from `nodes.py`: a present value emits
`name="escaped-value"`, a marker-only attribute emits bare ` name`. -/
def format_attributes (attrs : List (String × Option String)) : String :=
  String.join (attrs.map fun kv =>
    match kv.2 with
    | none => " " ++ kv.1
    | some v => " " ++ kv.1 ++ "=\"" ++ escape_html_text_plain v ++ "\"")

/-- `Element.__post_init__` from `nodes.py` as a checked constructor: an empty
tag or a void element with children is a construction-time `ValueError`. -/
def mkElement (tag : String) (attrs : List (String × Option String))
    (children : List Node) : Except Err Node :=
  if tag = "" then .error (.valueError "Element tag cannot be empty.")
  else if tag ∈ VOID_ELEMENTS ∧ children ≠ [] then
    .error (.valueError ("Void element <" ++ tag ++ "> cannot have children."))
  else .ok (.element tag attrs children)

/-- Collect the raw (unescaped) text of a children list if every child is a
`Text` node, as the loop in `Element._children_to_str` does; `none` when some
child is not a `Text` node. -/
def collect_text_children : List Node → Option String
  | [] => some ""
  | .text s :: rest => (collect_text_children rest).map (fun r => s.text ++ r)
  | _ :: _ => none

mutual
/-- `Node.__str__` from `nodes.py`: eager serialization of a node.  Fallible
because raw-text (`script`/`style`) elements reject non-`Text` children at
serialization time. -/
def node_to_str : Node → Except Err String
  | .text s => .ok (escape_html_text s)
  | .comment t => .ok ("<!--" ++ escape_html_comment t ++ "-->")
  | .doctype t => .ok ("<!DOCTYPE " ++ t ++ ">")
  | .fragment cs => (nodes_to_str cs).map String.join
  | .element tag attrs cs =>
    let a := format_attributes attrs
    if tag ∈ VOID_ELEMENTS then .ok ("<" ++ tag ++ a ++ " />")
    else if cs.isEmpty then .ok ("<" ++ tag ++ a ++ ">" ++ "</" ++ tag ++ ">")
    else do
      let body ← children_to_str tag cs
      .ok ("<" ++ tag ++ a ++ ">" ++ body ++ "</" ++ tag ++ ">")

/-- Serialization of a children list in order (the generator expression inside
`Element.__str__` and `Fragment.__str__`). -/
def nodes_to_str : List Node → Except Err (List String)
  | [] => .ok []
  | c :: rest => do
    let s ← node_to_str c
    let ss ← nodes_to_str rest
    .ok (s :: ss)

/-- `Element._children_to_str` from `nodes.py`: raw-text tags require all
children to be `Text` (else a hard `ValueError`) and bulk-escape the
concatenated raw content with the context-specific primitive; all other tags
serialize children individually. -/
def children_to_str (tag : String) (cs : List Node) : Except Err String :=
  if cs.isEmpty then .ok ""
  else if tag = "script" ∨ tag = "style" then
    match collect_text_children cs with
    | none => .error (.valueError "Cannot serialize non-text content inside a script tag.")
    | some raw =>
      if tag = "script" then .ok (escape_html_script raw)
      else .ok (escape_html_style raw)
  else (nodes_to_str cs).map String.join
end

mutual
/-- `Node.render_chunks` from `nodes.py`: the chunk-producing serializer.  An
element yields its open tag, its children's chunks (or one bulk-escaped chunk
for raw-text tags), then its close tag; void elements yield one self-closing
chunk; `Text`, `Comment` and `DocumentType` yield one chunk each; a fragment
yields its children's chunks. -/
def render_chunks : Node → Except Err (List String)
  | .text s => .ok [escape_html_text s]
  | .comment t => .ok ["<!--" ++ escape_html_comment t ++ "-->"]
  | .doctype t => .ok ["<!DOCTYPE " ++ t ++ ">"]
  | .fragment cs => render_chunks_list cs
  | .element tag attrs cs =>
    let a := format_attributes attrs
    if tag ∈ VOID_ELEMENTS then .ok ["<" ++ tag ++ a ++ " />"]
    else if cs.isEmpty then .ok ["<" ++ tag ++ a ++ ">", "</" ++ tag ++ ">"]
    else if tag = "script" ∨ tag = "style" then do
      let body ← children_to_str tag cs
      .ok (["<" ++ tag ++ a ++ ">"] ++ [body] ++ ["</" ++ tag ++ ">"])
    else do
      let inner ← render_chunks_list cs
      .ok (["<" ++ tag ++ a ++ ">"] ++ inner ++ ["</" ++ tag ++ ">"])

/-- Chunks of a children list in order (`yield from child.render_chunks()`). -/
def render_chunks_list : List Node → Except Err (List String)
  | [] => .ok []
  | c :: rest => do
    let s ← render_chunks c
    let ss ← render_chunks_list rest
    .ok (s ++ ss)
end

mutual
/-- Chunk structure promised by the spec for the chunk producer: one chunk per
open tag, per text node and per close tag, a raw-text body as one bulk chunk,
single chunks for the one-piece node kinds. -/
def chunk_count : Node → Nat
  | .text _ => 1
  | .comment _ => 1
  | .doctype _ => 1
  | .fragment cs => chunk_count_list cs
  | .element tag _ cs =>
    if tag ∈ VOID_ELEMENTS then 1
    else if cs.isEmpty then 2
    else if tag = "script" ∨ tag = "style" then 3
    else 2 + chunk_count_list cs

/-- Total chunk structure of a children list. -/
def chunk_count_list : List Node → Nat
  | [] => 0
  | c :: rest => chunk_count c + chunk_count_list rest
end

mutual
/-- Modelled from the spec: `flatten_nodes` from `processor.py` (not in
`src/`) — any child that is a Fragment splices its children in place, order
preserved, transitively, so no Fragment nests inside another flattened
Fragment. -/
def flatten_nodes : List Node → List Node
  | [] => []
  | c :: rest => flatten_one c ++ flatten_nodes rest

/-- Splice of a single node during flattening. -/
def flatten_one : Node → List Node
  | .fragment cs => flatten_nodes cs
  | n => [n]
end

/-- One part of a text placeholder reference: a literal string segment or an
interpolation slot index. -/
inductive RefPart where
  | lit (s : String)
  | interp (i : Nat)
deriving DecidableEq, Repr

/-- Modelled from the spec: `TemplateRef` from `placeholders.py` (not in
`src/`) — the parser's description of a text position, an ordered sequence of
literal segments and interpolation slot positions. -/
structure TemplateRef where
  parts : List RefPart
deriving DecidableEq, Repr

/-- Modelled from the spec: `TemplateRef.is_literal` — the reference carries
no interpolation slot at all. -/
def TemplateRef.litOnly (r : TemplateRef) : Bool :=
  r.parts.all fun p => match p with | .lit _ => true | .interp _ => false

/-- Modelled from the spec: `TemplateRef.strings` — the literal segments of
the reference in order (`ref.strings[0]` is the content of a pure literal). -/
def TemplateRef.strings (r : TemplateRef) : List String :=
  r.parts.filterMap fun p => match p with | .lit s => some s | .interp _ => none

/-- A static or interpolated attribute value on a placeholder element:
either a literal (optional) string or an interpolation slot index. -/
inductive TAttrVal where
  | lit (v : Option String)
  | interp (i : Nat)
deriving DecidableEq, Repr

/-- The placeholder tree produced by the external parser (`TNode` and its
variants in `parser.py`, absent from `src/`, laid out as the spec's closed
variant set): Text-ref, Comment-ref, DocumentType, Fragment, Element and
Component with a start interpolation index, an optional end index for paired
open/close syntax, attributes and children. -/
inductive TNode where
  | ttext (ref : TemplateRef)
  | tcomment (ref : TemplateRef)
  | tdoctype (text : String)
  | tfragment (children : List TNode)
  | telement (tag : String) (attrs : List (String × TAttrVal)) (children : List TNode)
  | tcomponent (start_i_index : Nat) (end_i_index : Option Nat)
      (attrs : List (String × TAttrVal)) (children : List TNode)
deriving Repr

/-- Modelled from the spec: the introspection collaborator's answer about a
callable (`get_callable_info` from `callables.py`, not in `src/`): whether it
has a required positional parameter, its named parameters, whether it accepts
arbitrary extra keywords, and which named parameters are required. -/
structure CallableInfo where
  requires_positional : Bool
  named_params : List String
  kwargs : Bool
  required_named_params : List String
deriving DecidableEq, Repr

/-- The universe of runtime values an interpolation slot can carry, shaped
after the dispatch cases of `_node_from_value_async` in `async_processor.py`:
a pending coroutine wrapping the value it resolves to, a (possibly
safe-markup) string, an already-built node, a nested template (carried
pre-parsed, as the external parser and cache would deliver it, together with
its own interpolation values), `False`, `None`, `True`, an iterable of
values, a non-string safe-markup object exposing `__html__`, a callable
(with its introspected parameter information and the value a call returns),
and a catch-all other object carrying its `str()` text. -/
inductive Value where
  | coroutine (v : Value)
  | str (s : SStr)
  | node (n : Node)
  | templ (t : TNode) (interps : List Value)
  | vfalse
  | vnone
  | vtrue
  | iterable (vs : List Value)
  | htmlObj (h : String)
  | callable (info : CallableInfo) (result : Value)
  | other (s : String)
deriving Repr

mutual
/-- Model of Python `==`/`!=` on runtime values (used by the component
boundary check `end_interpolation.value != start_interpolation.value`):
structural equality. -/
def valueBEq : Value → Value → Bool
  | .coroutine a, .coroutine b => valueBEq a b
  | .str a, .str b => a = b
  | .node a, .node b => a = b
  | .templ t1 i1, .templ t2 i2 => tnodeBEq t1 t2 && valueListBEq i1 i2
  | .vfalse, .vfalse => true
  | .vnone, .vnone => true
  | .vtrue, .vtrue => true
  | .iterable a, .iterable b => valueListBEq a b
  | .htmlObj a, .htmlObj b => a = b
  | .callable i1 r1, .callable i2 r2 => i1 = i2 && valueBEq r1 r2
  | .other a, .other b => a = b
  | _, _ => false

/-- Pointwise boolean equality of value lists. -/
def valueListBEq : List Value → List Value → Bool
  | [], [] => true
  | a :: as, b :: bs => valueBEq a b && valueListBEq as bs
  | _, _ => false

/-- Boolean equality of placeholder trees. -/
def tnodeBEq : TNode → TNode → Bool
  | .ttext r1, .ttext r2 => r1 = r2
  | .tcomment r1, .tcomment r2 => r1 = r2
  | .tdoctype t1, .tdoctype t2 => t1 = t2
  | .tfragment c1, .tfragment c2 => tnodeListBEq c1 c2
  | .telement g1 a1 c1, .telement g2 a2 c2 => g1 = g2 && a1 = a2 && tnodeListBEq c1 c2
  | .tcomponent s1 e1 a1 c1, .tcomponent s2 e2 a2 c2 =>
    s1 = s2 && e1 = e2 && a1 = a2 && tnodeListBEq c1 c2
  | _, _ => false

/-- Pointwise boolean equality of placeholder tree lists. -/
def tnodeListBEq : List TNode → List TNode → Bool
  | [], [] => true
  | a :: as, b :: bs => tnodeBEq a b && tnodeListBEq as bs
  | _, _ => false
end

/-- Python `isinstance(value, str)`: plain and safe-markup strings. -/
def Value.isStr : Value → Bool
  | .str _ => true
  | _ => false

/-- Python `isinstance(value, Node)`. -/
def Value.isNode : Value → Bool
  | .node _ => true
  | _ => false

/-- Python `isinstance(value, Template)`. -/
def Value.isTemplate : Value → Bool
  | .templ _ _ => true
  | _ => false

/-- Python `value is False or value is None` (`case False | None`). -/
def Value.isFalseOrNone : Value → Bool
  | .vfalse => true
  | .vnone => true
  | _ => false

/-- Python `isinstance(value, Iterable)`: strings are iterable, as are
iterables proper. -/
def Value.isIterable : Value → Bool
  | .str _ => true
  | .iterable _ => true
  | _ => false

/-- Python `isinstance(value, HasHTMLDunder)`: objects exposing `__html__` —
safe-markup strings, nodes (which define `__html__`) and safe-markup
objects. -/
def Value.hasHtmlDunder : Value → Bool
  | .str s => s.safe
  | .node _ => true
  | .htmlObj _ => true
  | _ => false

/-- Python `callable(value)`. -/
def Value.isCallable : Value → Bool
  | .callable _ _ => true
  | _ => false

/-- Python `inspect.iscoroutine(value)`. -/
def Value.isCoroutine : Value → Bool
  | .coroutine _ => true
  | _ => false

/-- The branches of the normalizer's `match` statement, in source order. -/
inductive Branch where
  | strB | nodeB | templB | falseNoneB | iterB | htmlB | callB | fallbackB
deriving DecidableEq, Repr

/-- The contractual dispatch order of the value normalizer. The Python `match`
tries, in order: string, node, nested template, `False`/`None`, iterable,
safe-markup object, callable, and the catch-all fallback; a value matching
several shapes takes the first matching branch. -/
def dispatch (v : Value) : Branch :=
  if v.isStr then .strB
  else if v.isNode then .nodeB
  else if v.isTemplate then .templB
  else if v.isFalseOrNone then .falseNoneB
  else if v.isIterable then .iterB
  else if v.hasHtmlDunder then .htmlB
  else if v.isCallable then .callB
  else .fallbackB

/-- The branch that actually handles each value shape in the normalizer's
implementation (one entry per constructor). -/
def branchOf : Value → Branch
  | .coroutine _ => .fallbackB
  | .str _ => .strB
  | .node _ => .nodeB
  | .templ _ _ => .templB
  | .vfalse => .falseNoneB
  | .vnone => .falseNoneB
  | .vtrue => .fallbackB
  | .iterable _ => .iterB
  | .htmlObj _ => .htmlB
  | .callable _ _ => .callB
  | .other _ => .fallbackB

/-- Model of Python `str(value)` as used by the fallback case (case 9: default
text representation) and by plain-text formatting of comment content. -/
def defaultStr : Value → String
  | .coroutine _ => "<coroutine object>"
  | .str s => s.text
  | .node _ => "<node>"
  | .templ _ _ => "<template>"
  | .vfalse => "False"
  | .vnone => "None"
  | .vtrue => "True"
  | .iterable _ => "<iterable>"
  | .htmlObj _ => "<html object>"
  | .callable _ _ => "<callable>"
  | .other s => s

/-- Python `type(value).__name__`, used in the non-callable component error. -/
def typeName : Value → String
  | .coroutine _ => "coroutine"
  | .str s => if s.safe then "Markup" else "str"
  | .node _ => "Node"
  | .templ _ _ => "Template"
  | .vfalse => "bool"
  | .vnone => "NoneType"
  | .vtrue => "bool"
  | .iterable _ => "list"
  | .htmlObj _ => "object"
  | .callable _ _ => "function"
  | .other _ => "object"

/-- The one-step await performed at the top of `_node_from_value_async`
(`if inspect.iscoroutine(value): value = await value`). -/
def awaited : Value → Value
  | .coroutine inner => inner
  | v => v

/-- Modelled from the spec: `format_interpolation` from `processor.py` (not
in `src/`) — an interpolation is "an opaque runtime value plus
source-expression text", so formatting yields the carried runtime value. -/
def format_interpolation (v : Value) : Value := v

/-- Modelled from the spec: `kebab_to_snake` from `processor.py` —
dash-delimited markup attribute names are translated to the callable's
underscore-delimited parameter convention. -/
def kebab_to_snake (s : String) : String :=
  String.mk (s.toList.map fun c => if c = '-' then '_' else c)

/-- Modelled from the spec: resolution of a single attribute value object to
the serializer's optional string form (part of `resolve_attrs` from
`processor.py`): an absent/`None` or marker value yields a bare attribute,
a string its text, anything else its default text representation. -/
def attr_value_to_str : Value → Option String
  | .vnone => none
  | .vtrue => none
  | .str s => some s.text
  | v => some (defaultStr v)

/-- Modelled from the spec: `resolve_attrs` from `processor.py` — attributes
are resolved synchronously into an ordered mapping, each interpolated value
formatted then rendered to its optional string form. -/
def resolve_attrs (attrs : List (String × TAttrVal)) (interps : List Value) :
    List (String × Option String) :=
  attrs.map fun kv =>
    (kv.1, match kv.2 with
      | .lit v => v
      | .interp i => attr_value_to_str (format_interpolation (interps.getD i .vnone)))

/-- Modelled from the spec: `resolve_t_attrs` from `processor.py` — component
attributes are resolved synchronously but keep their runtime values (a static
string stays a string, a bare marker becomes `True`, an interpolation its
formatted value). -/
def resolve_t_attrs (attrs : List (String × TAttrVal)) (interps : List Value) :
    List (String × Value) :=
  attrs.map fun kv =>
    (kv.1, match kv.2 with
      | .lit (some s) => Value.str ⟨s, false⟩
      | .lit none => Value.vtrue
      | .interp i => format_interpolation (interps.getD i .vnone))

/-- Modelled from the spec: `format_template` from `processor.py` applied to a
resolved comment reference — content resolved to plain text only, literal
segments verbatim and interpolations as their default text representation. -/
def format_template_ref (ref : TemplateRef) (interps : List Value) : String :=
  String.join (ref.parts.map fun p =>
    match p with
    | .lit s => s
    | .interp i => defaultStr (format_interpolation (interps.getD i .vnone)))

/-- A value bound into the keyword mapping of a component invocation: an
attribute value or the reserved `children` binding. -/
inductive BoundVal where
  | attr (v : Value)
  | childrenVal (ns : List Node)
deriving Repr

/-- Python `dict` assignment on an insertion-ordered association list:
overwrite in place if the key exists, else append. -/
def dict_set (k : String) (v : BoundVal) : List (String × BoundVal) → List (String × BoundVal)
  | [] => [(k, v)]
  | kv :: rest => if kv.1 = k then (k, v) :: rest else kv :: dict_set k v rest

/-- The keyword-binding loop of `_invoke_component_async`: each attribute name
is kebab-to-snake translated and forwarded only if declared by name or the
callable accepts arbitrary keywords; resolved children are forwarded under
the reserved `children` keyword under the same condition. -/
def bind_kwargs (info : CallableInfo) (attrs : List (String × Value))
    (children : List Node) : List (String × BoundVal) :=
  let base := attrs.foldl
    (fun acc kv =>
      let snake := kebab_to_snake kv.1
      if snake ∈ info.named_params ∨ info.kwargs then dict_set snake (.attr kv.2) acc
      else acc)
    []
  if "children" ∈ info.named_params ∨ info.kwargs then
    dict_set "children" (.childrenVal children) base
  else base

/-- The keys of a keyword binding, in insertion order. -/
def kwargs_keys (kw : List (String × BoundVal)) : List String := kw.map Prod.fst

/-- `callable_info.required_named_params - kwargs.keys()` from
`_invoke_component_async`: the required named parameters left unbound. -/
def missing_params (info : CallableInfo) (kw : List (String × BoundVal)) : List String :=
  info.required_named_params.filter fun p => !(kwargs_keys kw).contains p

/-- The sync part of the fan-out in `_resolve_t_text_ref_async`: the literal
segments paired with their original part indices, already wrapped as `Text`. -/
def sync_parts_of (ps : List (Nat × RefPart)) : List (Nat × Node) :=
  ps.filterMap fun ip =>
    match ip.2 with
    | .lit s => some (ip.1, Node.text ⟨s, false⟩)
    | .interp _ => none

/-- The async task list of the fan-out in `_resolve_t_text_ref_async`: for
each interpolated part, its original part index paired with the interpolation
slot it reads. -/
def async_specs_of (ps : List (Nat × RefPart)) : List (Nat × Nat) :=
  ps.filterMap fun ip =>
    match ip.2 with
    | .lit _ => none
    | .interp j => some (ip.1, j)

/-- The fan-in reassembly of `_resolve_t_text_ref_async`: a `parts` array of
the full length is allocated and every tagged result is written back at its
original index (`parts[idx] = node`), never in completion order. -/
def scatter (n : Nat) (tagged : List (Nat × Node)) : List Node :=
  tagged.foldl (fun arr inode => arr.set inode.1 inode.2) (List.replicate n (Node.fragment []))

mutual
/-- `_node_from_value_async` from `async_processor.py`: the concurrent value
normalizer.  A pending coroutine is awaited first; then the `match` dispatch
runs in source order: string, node, nested template (through the full
pipeline), `False`/`None` to an empty fragment, iterable fanned out and
reassembled in order, safe-markup object wrapped as safe `Text`, callable
invoked with zero arguments and its (awaited) result re-normalized, and the
fallback wrapping the default text representation as `Text`. -/
def node_from_value_async : Nat → Value → Except Err Node
  | 0, _ => .error .fuelOut
  | fuel + 1, v0 =>
    match awaited v0 with
    | .str s => .ok (.text s)
    | .node n => .ok n
    | .templ t interps => html_async fuel t interps
    | .vfalse => .ok (.fragment [])
    | .vnone => .ok (.fragment [])
    | .iterable vs => (node_list_from_values_async fuel vs).map .fragment
    | .htmlObj h => .ok (.text ⟨h, true⟩)
    | .callable info result =>
      if info.requires_positional || !info.required_named_params.isEmpty then
        .error (.typeError "missing required arguments in zero-argument call")
      else node_from_value_async fuel (awaited result)
    | v => .ok (.text ⟨defaultStr v, false⟩)
termination_by fuel v => (fuel, sizeOf v)

/-- The `asyncio.gather` over an iterable's elements: every element is
normalized (in the model, with the same budget, as parallel siblings) and the
results are reassembled in original order. -/
def node_list_from_values_async : Nat → List Value → Except Err (List Node)
  | _, [] => .ok []
  | 0, _ :: _ => .error .fuelOut
  | fuel + 1, v :: rest => do
    let n ← node_from_value_async fuel v
    let ns ← node_list_from_values_async (fuel + 1) rest
    .ok (n :: ns)
termination_by fuel vs => (fuel, sizeOf vs)

/-- `html_async` from `async_processor.py`, after the external parse-and-cache
step has produced the placeholder tree: resolve it against the template's
interpolation values. -/
def html_async : Nat → TNode → List Value → Except Err Node
  | 0, _, _ => .error .fuelOut
  | fuel + 1, t, interps => resolve_t_node_async fuel t interps
termination_by fuel t interps => (fuel, sizeOf t)

/-- `_resolve_t_node_async` from `async_processor.py`: one case per
placeholder variant.  A component fetches its start (and optional end)
interpolation, resolves attributes synchronously and children concurrently,
checks the paired open/close identity, then delegates to the invocation
protocol. -/
def resolve_t_node_async : Nat → TNode → List Value → Except Err Node
  | 0, _, _ => .error .fuelOut
  | fuel + 1, t, interps =>
    match t with
    | .ttext ref => resolve_t_text_ref_async fuel ref interps
    | .tcomment ref => .ok (.comment (format_template_ref ref interps))
    | .tdoctype text => .ok (.doctype text)
    | .tfragment children =>
      (substitute_and_flatten_children_async fuel children interps).map .fragment
    | .telement tag attrs children => do
      let resolved_attrs := resolve_attrs attrs interps
      let resolved_children ← substitute_and_flatten_children_async fuel children interps
      mkElement tag resolved_attrs resolved_children
    | .tcomponent s e attrs children => do
      let start_interpolation := interps.getD s .vnone
      let end_interpolation := e.map fun i => interps.getD i .vnone
      let resolved_attrs := resolve_t_attrs attrs interps
      let resolved_children ← substitute_and_flatten_children_async fuel children interps
      match end_interpolation with
      | some ev =>
        if !valueBEq ev start_interpolation then
          .error (.typeError "Mismatched component start and end callables.")
        else invoke_component_async fuel resolved_attrs resolved_children start_interpolation
      | none => invoke_component_async fuel resolved_attrs resolved_children start_interpolation
termination_by fuel t interps => (fuel, sizeOf t)

/-- `_substitute_and_flatten_children_async`: fan out one task per child,
gather in source order, then flatten fragments at the assembly point. -/
def substitute_and_flatten_children_async : Nat → List TNode → List Value → Except Err (List Node)
  | 0, _, _ => .error .fuelOut
  | fuel + 1, children, interps => do
    let resolved ← resolve_t_node_list_async fuel children interps
    .ok (flatten_nodes resolved)
termination_by fuel ts interps => (fuel, sizeOf ts)

/-- The gather over sibling children tasks, results in source order. -/
def resolve_t_node_list_async : Nat → List TNode → List Value → Except Err (List Node)
  | _, [], _ => .ok []
  | 0, _ :: _, _ => .error .fuelOut
  | fuel + 1, t :: rest, interps => do
    let n ← resolve_t_node_async fuel t interps
    let ns ← resolve_t_node_list_async (fuel + 1) rest interps
    .ok (n :: ns)
termination_by fuel ts interps => (fuel, sizeOf ts)

/-- `_resolve_t_text_ref_async` from `async_processor.py`: a pure literal
becomes `Text` verbatim; otherwise the parts are enumerated, literal parts
are collected synchronously with their indices, interpolated parts become
parallel tasks, and after the gather every result is written back at its
original index before flattening; a single resulting `Text` collapses. -/
def resolve_t_text_ref_async : Nat → TemplateRef → List Value → Except Err Node
  | 0, _, _ => .error .fuelOut
  | fuel + 1, ref, interps =>
    if ref.litOnly then .ok (.text ⟨ref.strings.headD "", false⟩)
    else do
      let enumerated := ref.parts.enum
      let sync_parts := sync_parts_of enumerated
      let async_results ← run_text_tasks_async fuel (async_specs_of enumerated) interps
      let parts := scatter enumerated.length (sync_parts ++ async_results)
      let flat := flatten_nodes parts
      match flat with
      | [Node.text s] => .ok (.text s)
      | _ => .ok (.fragment flat)
termination_by fuel ref interps => (fuel, sizeOf ref)

/-- The gather over the interpolated text parts' tasks: each task normalizes
its formatted interpolation value; results keep their original part index. -/
def run_text_tasks_async : Nat → List (Nat × Nat) → List Value → Except Err (List (Nat × Node))
  | _, [], _ => .ok []
  | 0, _ :: _, _ => .error .fuelOut
  | fuel + 1, ij :: rest, interps => do
    let n ← node_from_value_async fuel (format_interpolation (interps.getD ij.2 .vnone))
    let ns ← run_text_tasks_async (fuel + 1) rest interps
    .ok ((ij.1, n) :: ns)
termination_by fuel specs interps => (fuel, sizeOf specs)

/-- `_invoke_component_async` from `async_processor.py`: the callee comes from
one interpolation slot; a non-callable is a `TypeError`, a required positional
parameter is rejected before invocation, attributes and children are bound by
keyword, any required named parameter left unbound is a hard error naming the
missing parameters, and only then is the callable invoked and its (awaited)
result re-normalized. -/
def invoke_component_async : Nat → List (String × Value) → List Node → Value → Except Err Node
  | 0, _, _, _ => .error .fuelOut
  | fuel + 1, attrs, children, interpolation =>
    let value := format_interpolation interpolation
    match value with
    | .callable info result =>
      if info.requires_positional then
        .error (.typeError "Component callables cannot have required positional arguments.")
      else
        let kwargs := bind_kwargs info attrs children
        let missing := missing_params info kwargs
        if !missing.isEmpty then
          .error (.typeError ("Missing required parameters for component: "
            ++ String.intercalate ", " missing))
        else node_from_value_async fuel (awaited result)
    | v => .error (.typeError ("Expected a callable for component invocation, got " ++ typeName v))
termination_by fuel attrs children interpolation => (fuel, 0)
end

mutual
/-- Modelled from the spec: `_node_from_value` from `processor.py` (not in
`src/`) — the sequential value normalizer, same fixed dispatch order as the
concurrent form except case 1: a pending/deferred value met here "fails fast
with a distinct error instead of blocking", and a callable's asynchronous
result is not awaited (so it reaches this same error through re-dispatch). -/
def node_from_value_seq : Nat → Value → Except Err Node
  | 0, _ => .error .fuelOut
  | fuel + 1, v =>
    match v with
    | .coroutine _ =>
      .error (.usageError "Cannot resolve a pending value in sequential resolution.")
    | .str s => .ok (.text s)
    | .node n => .ok n
    | .templ t interps => html_seq fuel t interps
    | .vfalse => .ok (.fragment [])
    | .vnone => .ok (.fragment [])
    | .iterable vs => (node_list_from_values_seq fuel vs).map .fragment
    | .htmlObj h => .ok (.text ⟨h, true⟩)
    | .callable info result =>
      if info.requires_positional || !info.required_named_params.isEmpty then
        .error (.typeError "missing required arguments in zero-argument call")
      else node_from_value_seq fuel result
    | v => .ok (.text ⟨defaultStr v, false⟩)
termination_by fuel v => (fuel, sizeOf v)

/-- Modelled from the spec: sequential normalization of an iterable's
elements, each element normalized independently, in source order. -/
def node_list_from_values_seq : Nat → List Value → Except Err (List Node)
  | _, [] => .ok []
  | 0, _ :: _ => .error .fuelOut
  | fuel + 1, v :: rest => do
    let n ← node_from_value_seq fuel v
    let ns ← node_list_from_values_seq (fuel + 1) rest
    .ok (n :: ns)
termination_by fuel vs => (fuel, sizeOf vs)

/-- Modelled from the spec: `html` from `processor.py` after the external
parse-and-cache step — sequential resolution of the placeholder tree against
the template's interpolation values. -/
def html_seq : Nat → TNode → List Value → Except Err Node
  | 0, _, _ => .error .fuelOut
  | fuel + 1, t, interps => resolve_t_node_seq fuel t interps
termination_by fuel t interps => (fuel, sizeOf t)

/-- Modelled from the spec: `_resolve_t_node` from `processor.py` — the
sequential resolution engine, one case per placeholder variant, identical to
the concurrent engine except that children are resolved sequentially. -/
def resolve_t_node_seq : Nat → TNode → List Value → Except Err Node
  | 0, _, _ => .error .fuelOut
  | fuel + 1, t, interps =>
    match t with
    | .ttext ref => resolve_t_text_ref_seq fuel ref interps
    | .tcomment ref => .ok (.comment (format_template_ref ref interps))
    | .tdoctype text => .ok (.doctype text)
    | .tfragment children =>
      (substitute_and_flatten_children_seq fuel children interps).map .fragment
    | .telement tag attrs children => do
      let resolved_attrs := resolve_attrs attrs interps
      let resolved_children ← substitute_and_flatten_children_seq fuel children interps
      mkElement tag resolved_attrs resolved_children
    | .tcomponent s e attrs children => do
      let start_interpolation := interps.getD s .vnone
      let end_interpolation := e.map fun i => interps.getD i .vnone
      let resolved_attrs := resolve_t_attrs attrs interps
      let resolved_children ← substitute_and_flatten_children_seq fuel children interps
      match end_interpolation with
      | some ev =>
        if !valueBEq ev start_interpolation then
          .error (.typeError "Mismatched component start and end callables.")
        else invoke_component_seq fuel resolved_attrs resolved_children start_interpolation
      | none => invoke_component_seq fuel resolved_attrs resolved_children start_interpolation
termination_by fuel t interps => (fuel, sizeOf t)

/-- Modelled from the spec: sequential child substitution — children resolved
in source order, results flattened at the assembly point. -/
def substitute_and_flatten_children_seq : Nat → List TNode → List Value → Except Err (List Node)
  | 0, _, _ => .error .fuelOut
  | fuel + 1, children, interps => do
    let resolved ← resolve_t_node_list_seq fuel children interps
    .ok (flatten_nodes resolved)
termination_by fuel ts interps => (fuel, sizeOf ts)

/-- Modelled from the spec: sequential resolution of a children list. -/
def resolve_t_node_list_seq : Nat → List TNode → List Value → Except Err (List Node)
  | _, [], _ => .ok []
  | 0, _ :: _, _ => .error .fuelOut
  | fuel + 1, t :: rest, interps => do
    let n ← resolve_t_node_seq fuel t interps
    let ns ← resolve_t_node_list_seq (fuel + 1) rest interps
    .ok (n :: ns)
termination_by fuel ts interps => (fuel, sizeOf ts)

/-- Modelled from the spec: sequential Text-ref resolution — a pure literal
becomes `Text` verbatim; otherwise literal and interpolated segments are each
resolved and concatenated left-to-right in source order, then flattened, and
a single resulting `Text` collapses to that node, else a `Fragment`. -/
def resolve_t_text_ref_seq : Nat → TemplateRef → List Value → Except Err Node
  | 0, _, _ => .error .fuelOut
  | fuel + 1, ref, interps =>
    if ref.litOnly then .ok (.text ⟨ref.strings.headD "", false⟩)
    else do
      let parts ← resolve_parts_seq fuel ref.parts interps
      let flat := flatten_nodes parts
      match flat with
      | [Node.text s] => .ok (.text s)
      | _ => .ok (.fragment flat)
termination_by fuel ref interps => (fuel, sizeOf ref)

/-- Modelled from the spec: in-source-order resolution of a reference's
parts — a literal segment becomes `Text` verbatim, an interpolated segment is
formatted and normalized. -/
def resolve_parts_seq : Nat → List RefPart → List Value → Except Err (List Node)
  | _, [], _ => .ok []
  | fuel, .lit s :: rest, interps => do
    let ns ← resolve_parts_seq fuel rest interps
    .ok (Node.text ⟨s, false⟩ :: ns)
  | 0, .interp _ :: _, _ => .error .fuelOut
  | fuel + 1, .interp j :: rest, interps => do
    let n ← node_from_value_seq fuel (format_interpolation (interps.getD j .vnone))
    let ns ← resolve_parts_seq (fuel + 1) rest interps
    .ok (n :: ns)
termination_by fuel ps interps => (fuel, sizeOf ps)

/-- Modelled from the spec: `_invoke_component` from `processor.py` — the
shared component invocation protocol, sequential form: identical binding and
error checks, the result re-enters the sequential normalizer. -/
def invoke_component_seq : Nat → List (String × Value) → List Node → Value → Except Err Node
  | 0, _, _, _ => .error .fuelOut
  | fuel + 1, attrs, children, interpolation =>
    let value := format_interpolation interpolation
    match value with
    | .callable info result =>
      if info.requires_positional then
        .error (.typeError "Component callables cannot have required positional arguments.")
      else
        let kwargs := bind_kwargs info attrs children
        let missing := missing_params info kwargs
        if !missing.isEmpty then
          .error (.typeError ("Missing required parameters for component: "
            ++ String.intercalate ", " missing))
        else node_from_value_seq fuel result
    | v => .error (.typeError ("Expected a callable for component invocation, got " ++ typeName v))
termination_by fuel attrs children interpolation => (fuel, 0)
end

mutual
/-- A value is free of pending/deferred (coroutine) content: such values are
representable to both engines (the sequential one fails fast on a pending
value by design). -/
def Value.syncSafe : Value → Bool
  | .coroutine _ => false
  | .templ _ interps => valuesSyncSafe interps
  | .iterable vs => valuesSyncSafe vs
  | .callable _ result => result.syncSafe
  | _ => true

/-- Pointwise `syncSafe` over a value list. -/
def valuesSyncSafe : List Value → Bool
  | [] => true
  | v :: rest => v.syncSafe && valuesSyncSafe rest
end

mutual
/-- A value whose shape the normalizer can finish on without recursing into a
nested template's full pipeline and without a zero-argument call failing: all
embedded callables are callable with zero arguments and no nested template
value occurs.  On this class the concurrent normalizer is total. -/
def Value.shapeTotal : Value → Bool
  | .coroutine v => v.shapeTotal
  | .templ _ _ => false
  | .iterable vs => valuesShapeTotal vs
  | .callable info result =>
    !info.requires_positional && info.required_named_params.isEmpty && result.shapeTotal
  | _ => true

/-- Pointwise `shapeTotal` over a value list. -/
def valuesShapeTotal : List Value → Bool
  | [] => true
  | v :: rest => v.shapeTotal && valuesShapeTotal rest
end

/-- Ambient context slots, from `context.py`.  A `Context` owns one
`contextvars.ContextVar` created with the slot's name and, when given, a
default.  The variable's state is modelled explicitly: `none` when unset,
`some v` when set to `v`. -/
structure ContextModel (T : Type) where
  name : String
  default : Option T

/-- `create_context` from `context.py`. -/
def create_context {T : Type} (name : String) (default : Option T) : ContextModel T :=
  ⟨name, default⟩

/-- `Context.get` from `context.py`, i.e. `ContextVar.get()`: the current set
value, else the variable's default, else a `LookupError`. -/
def ContextModel.getValue {T : Type} (c : ContextModel T) (state : Option T) : Except Err T :=
  match state with
  | some v => .ok v
  | none =>
    match c.default with
    | some d => .ok d
    | none => .error (.valueError ("LookupError: " ++ c.name))

/-- The outcome of a `provide` body: a normal return or a raised error,
together with the variable state the body left behind (the body may itself
run nested `provide` blocks). -/
inductive BodyOutcome (ε α T : Type) where
  | ret (a : α) (state : Option T)
  | raise (e : ε) (state : Option T)

/-- `Context.provide` from `context.py`: `token = var.set(value)` records the
prior binding, the body runs with the binding overridden, and the `finally`
block runs `var.reset(token)` on every exit path — normal return and raise
alike — restoring the exact prior binding regardless of what the body did to
the variable. -/
def ContextModel.provide {T ε α : Type} (_c : ContextModel T) (value : T)
    (body : Option T → BodyOutcome ε α T) (state : Option T) :
    Except ε α × Option T :=
  let token := state
  match body (some value) with
  | .ret a _ => (.ok a, token)
  | .raise e _ => (.error e, token)

/-- A runtime template value as `string.templatelib.Template` presents it to
`CachableTemplate`: its literal string segments and its interpolations. -/
structure PyTemplate where
  strings : List String
  interpolations : List Value

/-- `CachableTemplate` from `utils.py`: wraps a template with the
foreign-content mode flag. -/
structure CachableTemplate where
  template : PyTemplate
  svg_context : Bool

/-- `CachableTemplate.__eq__` from `utils.py`: equality compares only the
template's literal segment tuple and the mode flag — never interpolations. -/
def CachableTemplate.eqKey (a b : CachableTemplate) : Bool :=
  a.template.strings == b.template.strings && a.svg_context == b.svg_context

/-- `CachableTemplate.__hash__` from `utils.py`:
`hash((template.strings, svg_context))`. -/
def CachableTemplate.hashKey (a : CachableTemplate) : UInt64 :=
  hash (a.template.strings, a.svg_context)

/-- Modelled from the spec: the lookup half of `parse_and_cache` from
`processor.py` — the cache maps a structural key to a previously built
placeholder tree, keyed by `CachableTemplate` equality. -/
def cache_lookup (cache : List (CachableTemplate × TNode)) (k : CachableTemplate) :
    Option TNode :=
  (cache.find? fun e => CachableTemplate.eqKey e.1 k).map Prod.snd

/-! ### Supporting lemmas -/

theorem string_join_cons (s : String) (rest : List String) :
    String.join (s :: rest) = s ++ String.join rest := by
  induction rest generalizing s with
  | nil => simp [String.join]
  | cons t ts ih =>
    have h1 : String.join (s :: t :: ts) = String.join ((s ++ t) :: ts) := by
      simp [String.join, String.empty_append]
    rw [h1, ih, ih t, String.append_assoc]

theorem string_join_singleton (s : String) : String.join [s] = s := by
  simp [String.join]

theorem string_join_append (a b : List String) :
    String.join (a ++ b) = String.join a ++ String.join b := by
  induction a with
  | nil =>
    have : String.join ([] : List String) = "" := rfl
    simp [this, String.empty_append]
  | cons x xs ih =>
    simp only [List.cons_append, string_join_cons, ih, String.append_assoc]

/-! ### C5 — context slots -/

/-- C5: for every context slot, `provide(value, body)` executes the body with
the binding overridden (inside the body `get` sees the provided value) and
restores the exact prior binding on every exit path, both when the body
returns normally (propagating its result) and when it raises (propagating the
error); `get` with no enclosing provide and no default fails with a
not-found (`LookupError`) error, and with a default returns that default. -/
theorem c5_context_provide_scoping {T ε α : Type} (c : ContextModel T) (value : T)
    (body : Option T → BodyOutcome ε α T) (state : Option T) :
    (c.provide value body state).2 = state
    ∧ (∀ a s', body (some value) = .ret a s' → (c.provide value body state).1 = .ok a)
    ∧ (∀ e s', body (some value) = .raise e s' → (c.provide value body state).1 = .error e)
    ∧ c.getValue (some value) = .ok value
    ∧ (∀ name : String, (create_context name (none : Option T)).getValue none =
        .error (.valueError ("LookupError: " ++ name)))
    ∧ (∀ (name : String) (d : T), (create_context name (some d)).getValue none = .ok d) := by
  refine ⟨?_, ?_, ?_, rfl, fun _ => rfl, fun _ _ => rfl⟩
  · unfold ContextModel.provide
    cases body (some value) <;> rfl
  · intro a s' h
    unfold ContextModel.provide
    rw [h]
  · intro e s' h
    unfold ContextModel.provide
    rw [h]

/-- Witness for C5 at a concrete slot: a nested provide whose body raises at
depth two still restores the prior binding, a normally returning body yields
its result, and the two `get` failure/default behaviours hold at `Nat`. -/
theorem c5_witness :
    ((ContextModel.provide ⟨"user", none⟩ 1
        (fun s1 =>
          match ContextModel.provide ⟨"user", none⟩ 2
              (fun _s2 => (BodyOutcome.raise "boom" none : BodyOutcome String Nat Nat)) s1 with
          | (.ok a, s') => .ret a s'
          | (.error e, s') => .raise e s')
        (some 0)).2 = some 0)
    ∧ (ContextModel.provide ⟨"user", none⟩ 1
        (fun s1 => (BodyOutcome.ret s1 s1 : BodyOutcome String (Option Nat) Nat))
        (none : Option Nat)).1 = .ok (some 1)
    ∧ (create_context "user" (none : Option Nat)).getValue none =
        .error (.valueError ("LookupError: " ++ "user"))
    ∧ (create_context "user" (some 9)).getValue none = .ok 9 := by
  refine ⟨?_, ?_, ?_, ?_⟩
  · exact (c5_context_provide_scoping ⟨"user", none⟩ 1 _ (some 0)).1
  · exact (c5_context_provide_scoping ⟨"user", none⟩ 1 _ none).2.1 (some 1) (some 1) rfl
  · exact (c5_context_provide_scoping ⟨"x", none⟩ 0
      (fun s => (BodyOutcome.ret 0 s : BodyOutcome String Nat Nat)) none).2.2.2.2.1 "user"
  · exact (c5_context_provide_scoping ⟨"x", none⟩ 0
      (fun s => (BodyOutcome.ret 0 s : BodyOutcome String Nat Nat)) none).2.2.2.2.2 "user" 9

/-! ### C6 — template cache key -/

/-- C6: the template cache key is derived only from the template's literal
segments and the mode flag, never from interpolated values: two templates
with identical literal-segment tuples and the same `svg_context` flag have
equal and hash-equal `CachableTemplate` keys regardless of differing
interpolated values, so any cache lookup returns the same cached placeholder
tree for both. -/
theorem c6_cache_key_ignores_interpolations (s : List String) (flag : Bool)
    (i1 i2 : List Value) (cache : List (CachableTemplate × TNode)) :
    CachableTemplate.eqKey ⟨⟨s, i1⟩, flag⟩ ⟨⟨s, i2⟩, flag⟩ = true
    ∧ CachableTemplate.hashKey ⟨⟨s, i1⟩, flag⟩ = CachableTemplate.hashKey ⟨⟨s, i2⟩, flag⟩
    ∧ cache_lookup cache ⟨⟨s, i1⟩, flag⟩ = cache_lookup cache ⟨⟨s, i2⟩, flag⟩ := by
  refine ⟨?_, rfl, rfl⟩
  simp [CachableTemplate.eqKey]

/-! ### C3 — void elements -/

/-- C3: for every tag in the fixed void-element set, constructing an Element
with non-empty children fails with a construction-time `ValueError`;
constructing it with empty children succeeds, and serializing it emits a
self-closing open tag with its attributes and no children or close tag. -/
theorem c3_void_elements (tag : String) (h : tag ∈ VOID_ELEMENTS)
    (attrs : List (String × Option String)) (children : List Node) :
    (children ≠ [] → mkElement tag attrs children =
      .error (.valueError ("Void element <" ++ tag ++ "> cannot have children.")))
    ∧ mkElement tag attrs [] = .ok (.element tag attrs [])
    ∧ node_to_str (.element tag attrs []) =
        .ok ("<" ++ tag ++ format_attributes attrs ++ " />") := by
  have htag : tag ≠ "" := by fin_cases h <;> decide
  refine ⟨?_, ?_, ?_⟩
  · intro hc
    simp [mkElement, htag, h, hc]
  · simp [mkElement, htag]
  · simp [node_to_str, h]

/-- Witness for C3 at the claim's example: `Element("br", {class: "break"},
[...])` fails while the childless form succeeds and serializes to
`<br class="break" />`. -/
theorem c3_witness :
    mkElement "br" [("class", some "break")] [Node.text ⟨"x", false⟩] =
      .error (.valueError ("Void element <" ++ "br" ++ "> cannot have children."))
    ∧ mkElement "br" [("class", some "break")] [] =
      .ok (.element "br" [("class", some "break")] [])
    ∧ node_to_str (.element "br" [("class", some "break")] []) =
      .ok "<br class=\x22break\x22 />" := by
  obtain ⟨h1, h2, h3⟩ :=
    c3_void_elements "br" (by decide) [("class", some "break")] [Node.text ⟨"x", false⟩]
  exact ⟨h1 (by decide), h2, h3⟩

/-! ### C4 — raw-text (script/style) serialization -/

theorem collect_text_children_none_iff (cs : List Node) :
    collect_text_children cs = none ↔ ∃ c ∈ cs, ∀ s, c ≠ Node.text s := by
  induction cs with
  | nil => simp [collect_text_children]
  | cons c rest ih =>
    cases c with
    | text s =>
      simp only [collect_text_children, Option.map_eq_none', ih]
      constructor
      · rintro ⟨c, hc, hne⟩
        exact ⟨c, List.mem_cons_of_mem _ hc, hne⟩
      · rintro ⟨c, hc, hne⟩
        rcases List.mem_cons.mp hc with rfl | hmem
        · exact absurd rfl (hne s)
        · exact ⟨c, hmem, hne⟩
    | comment t =>
      constructor
      · intro _
        exact ⟨Node.comment t, List.mem_cons_self _ _, fun s => by simp⟩
      · intro _; rfl
    | doctype t =>
      constructor
      · intro _
        exact ⟨Node.doctype t, List.mem_cons_self _ _, fun s => by simp⟩
      · intro _; rfl
    | fragment cs' =>
      constructor
      · intro _
        exact ⟨Node.fragment cs', List.mem_cons_self _ _, fun s => by simp⟩
      · intro _; rfl
    | element tag a cs' =>
      constructor
      · intro _
        exact ⟨Node.element tag a cs', List.mem_cons_self _ _, fun s => by simp⟩
      · intro _; rfl

theorem collect_text_children_map (texts : List SStr) :
    collect_text_children (texts.map Node.text) =
      some (String.join (texts.map SStr.text)) := by
  induction texts with
  | nil => rfl
  | cons s rest ih =>
    simp only [List.map_cons, collect_text_children, ih, Option.map_some',
      string_join_cons]

/-- C4: for every Element whose tag is `script` or `style` and that has at
least one child, serialization fails with a hard `ValueError` when some child
is not a `Text` node; when all children are `Text` nodes their raw contents
are concatenated and escaped in bulk with the script- or style-specific
escaping primitive rather than per-node body-text escaping — in particular
`a < b` inside a script body is not entity-escaped the way body text is. -/
theorem c4_raw_text_children (tag : String) (htag : tag = "script" ∨ tag = "style")
    (attrs : List (String × Option String)) (children : List Node)
    (hne : children ≠ []) :
    ((∃ c ∈ children, ∀ s, c ≠ Node.text s) →
      node_to_str (.element tag attrs children) =
        .error (.valueError "Cannot serialize non-text content inside a script tag."))
    ∧ (∀ texts : List SStr, children = texts.map Node.text →
      node_to_str (.element tag attrs children) =
        .ok ("<" ++ tag ++ format_attributes attrs ++ ">"
          ++ (if tag = "script"
              then escape_html_script (String.join (texts.map SStr.text))
              else escape_html_style (String.join (texts.map SStr.text)))
          ++ "</" ++ tag ++ ">"))
    ∧ escape_html_script "a < b" = "a < b"
    ∧ escape_html_text_plain "a < b" = "a &lt; b" := by
  have hnv : tag ∉ VOID_ELEMENTS := by
    rcases htag with rfl | rfl <;> decide
  have hne' : children.isEmpty = false := by
    cases children
    · exact absurd rfl hne
    · rfl
  refine ⟨?_, ?_, by decide, by decide⟩
  · intro hex
    have hcoll : collect_text_children children = none :=
      (collect_text_children_none_iff children).mpr hex
    simp [node_to_str, children_to_str, hnv, hne', htag, hcoll, Except.bind]
    rfl
  · intro texts htexts
    subst htexts
    have hcoll := collect_text_children_map texts
    rcases htag with rfl | rfl
    · simp [node_to_str, children_to_str, hne', hcoll, Except.bind,
        show ("script" : String) ∉ VOID_ELEMENTS from by decide]
      rfl
    · simp [node_to_str, children_to_str, hne', hcoll, Except.bind,
        show ("style" : String) ∉ VOID_ELEMENTS from by decide]
      rfl

/-- Witness for C4 at concrete elements: a `script` with an element child
fails at serialization; a `script` whose text child holds `a < b` serializes
with the raw (non-entity-escaped) body. -/
theorem c4_witness :
    node_to_str (.element "script" [] [Node.element "b" [] []]) =
      .error (.valueError "Cannot serialize non-text content inside a script tag.")
    ∧ node_to_str (.element "script" [] [Node.text ⟨"a < b", false⟩]) =
      .ok ("<" ++ "script" ++ format_attributes [] ++ ">"
        ++ (if ("script" : String) = "script"
            then escape_html_script (String.join ([(⟨"a < b", false⟩ : SStr)].map SStr.text))
            else escape_html_style (String.join ([(⟨"a < b", false⟩ : SStr)].map SStr.text)))
        ++ "</" ++ "script" ++ ">")
    ∧ escape_html_script "a < b" = "a < b"
    ∧ escape_html_text_plain "a < b" = "a &lt; b" := by
  obtain ⟨h1, h2, h3, h4⟩ :=
    c4_raw_text_children "script" (Or.inl rfl) [] [Node.element "b" [] []] (by decide)
  obtain ⟨_, h2', _, _⟩ :=
    c4_raw_text_children "script" (Or.inl rfl) [] [Node.text ⟨"a < b", false⟩] (by decide)
  refine ⟨h1 ?_, h2' [⟨"a < b", false⟩] rfl, h3, h4⟩
  exact ⟨Node.element "b" [] [], by simp, by simp⟩

/-! ### C8 — missing required component parameters -/

/-- C8: when a component callable is invoked, any parameter the callable
requires that remains unbound after attribute and children binding causes a
hard `TypeError` whose message names the missing parameters, and the callable
is not invoked — the outcome is independent of what the callable would
return.  The missing list is exactly the required named parameters not bound
as keywords. -/
theorem c8_missing_required_params (fuel : Nat) (info : CallableInfo)
    (result : Value) (attrs : List (String × Value)) (children : List Node)
    (hpos : info.requires_positional = false)
    (hmiss : missing_params info (bind_kwargs info attrs children) ≠ []) :
    invoke_component_async (fuel + 1) attrs children (.callable info result) =
      .error (.typeError ("Missing required parameters for component: "
        ++ String.intercalate ", " (missing_params info (bind_kwargs info attrs children))))
    ∧ (∀ result', invoke_component_async (fuel + 1) attrs children (.callable info result') =
        invoke_component_async (fuel + 1) attrs children (.callable info result))
    ∧ (∀ p, p ∈ missing_params info (bind_kwargs info attrs children) ↔
        p ∈ info.required_named_params ∧
          p ∉ kwargs_keys (bind_kwargs info attrs children)) := by
  have hm : (missing_params info (bind_kwargs info attrs children)).isEmpty = false := by
    cases hmp : missing_params info (bind_kwargs info attrs children)
    · exact absurd hmp hmiss
    · rfl
  have hmain : invoke_component_async (fuel + 1) attrs children (.callable info result) =
      .error (.typeError ("Missing required parameters for component: "
        ++ String.intercalate ", " (missing_params info (bind_kwargs info attrs children)))) := by
    simp [invoke_component_async, format_interpolation, hpos, hm]
  refine ⟨hmain, ?_, ?_⟩
  · intro result'
    have hmain' : invoke_component_async (fuel + 1) attrs children (.callable info result') =
        .error (.typeError ("Missing required parameters for component: "
          ++ String.intercalate ", " (missing_params info (bind_kwargs info attrs children)))) := by
      simp [invoke_component_async, format_interpolation, hpos, hm]
    rw [hmain, hmain']
  · intro p
    simp [missing_params, List.mem_filter, kwargs_keys]

/-- Witness for C8 at the claim's example: a component callable with required
named parameter `name` left unbound raises a `TypeError` naming `name`, and
does so for two different would-be results alike. -/
theorem c8_witness :
    invoke_component_async 1 [] []
        (.callable ⟨false, ["name"], false, ["name"]⟩ .vnone) =
      .error (.typeError ("Missing required parameters for component: "
        ++ String.intercalate ", "
            (missing_params ⟨false, ["name"], false, ["name"]⟩
              (bind_kwargs ⟨false, ["name"], false, ["name"]⟩ [] []))))
    ∧ invoke_component_async 1 [] []
        (.callable ⟨false, ["name"], false, ["name"]⟩ (.str ⟨"x", false⟩)) =
      invoke_component_async 1 [] []
        (.callable ⟨false, ["name"], false, ["name"]⟩ .vnone)
    ∧ ("name" ∈ missing_params ⟨false, ["name"], false, ["name"]⟩
          (bind_kwargs ⟨false, ["name"], false, ["name"]⟩ [] []) ↔
        "name" ∈ (["name"] : List String) ∧
          "name" ∉ kwargs_keys (bind_kwargs ⟨false, ["name"], false, ["name"]⟩ [] [])) := by
  obtain ⟨h1, h2, h3⟩ :=
    c8_missing_required_params 0 ⟨false, ["name"], false, ["name"]⟩ .vnone [] []
      rfl (by decide)
  exact ⟨h1, h2 (.str ⟨"x", false⟩), h3 "name"⟩

/-! ### C9 — paired open/close component identity -/

/-- C9: for a Component placeholder with paired open/close syntax (an end
interpolation index present), once the children have resolved, resolution
raises a mismatched-boundary `TypeError` when the end slot's value does not
equal the start slot's value, and proceeds to the invocation protocol with
the start callee when the two agree. -/
theorem c9_component_boundary (fuel : Nat) (s e : Nat)
    (attrs : List (String × TAttrVal)) (children : List TNode)
    (interps : List Value) (rc : List Node)
    (hc : substitute_and_flatten_children_async fuel children interps = .ok rc) :
    (valueBEq (interps.getD e .vnone) (interps.getD s .vnone) = false →
      resolve_t_node_async (fuel + 1) (.tcomponent s (some e) attrs children) interps =
        .error (.typeError "Mismatched component start and end callables."))
    ∧ (valueBEq (interps.getD e .vnone) (interps.getD s .vnone) = true →
      resolve_t_node_async (fuel + 1) (.tcomponent s (some e) attrs children) interps =
        invoke_component_async fuel (resolve_t_attrs attrs interps) rc
          (interps.getD s .vnone)) := by
  constructor
  · intro hne
    rw [List.getD_eq_getElem?_getD, List.getD_eq_getElem?_getD] at hne
    simp [resolve_t_node_async, hc, hne, Except.bind]
    rfl
  · intro heq
    rw [List.getD_eq_getElem?_getD, List.getD_eq_getElem?_getD] at heq
    simp [resolve_t_node_async, hc, heq, Except.bind]
    rfl

/-- Witness for C9: with one callable in slot 0 and a different callable in
slot 1, the paired form `start = 0, end = 1` errors, while `start = end = 0`
proceeds to invocation. -/
theorem c9_witness :
    resolve_t_node_async 2 (.tcomponent 0 (some 1) [] [])
        [.callable ⟨false, [], false, []⟩ .vnone,
         .callable ⟨false, [], true, []⟩ .vnone] =
      .error (.typeError "Mismatched component start and end callables.")
    ∧ resolve_t_node_async 2 (.tcomponent 0 (some 0) [] [])
        [.callable ⟨false, [], false, []⟩ .vnone,
         .callable ⟨false, [], true, []⟩ .vnone] =
      invoke_component_async 1 (resolve_t_attrs [] [.callable ⟨false, [], false, []⟩ .vnone,
          .callable ⟨false, [], true, []⟩ .vnone]) []
        (([.callable ⟨false, [], false, []⟩ .vnone,
           .callable ⟨false, [], true, []⟩ .vnone] : List Value).getD 0 .vnone) := by
  have hc : substitute_and_flatten_children_async 1 ([] : List TNode)
      [Value.callable ⟨false, [], false, []⟩ .vnone,
       Value.callable ⟨false, [], true, []⟩ .vnone] = .ok [] := by
    simp [substitute_and_flatten_children_async, resolve_t_node_list_async, flatten_nodes,
      Except.bind]
    rfl
  constructor
  · exact (c9_component_boundary 1 0 1 [] [] _ [] hc).1 (by decide)
  · exact (c9_component_boundary 1 0 0 [] [] _ [] hc).2 (by decide)

/-! ### C10 — safe-markup strings pass through unmodified -/

/-- C10: a safe-markup value that is a string subclass (markupsafe `Markup`)
satisfies both the string test and the safe-markup-object test, the dispatch
order sends it to the string branch (which comes before the safe-markup
branch), the concurrent normalizer returns `Text` holding it unchanged, and
serializing that `Text` — eagerly or chunked — performs no re-escaping, so
the markup passes through the full pipeline unmodified. -/
theorem c10_markup_passthrough (s : String) (fuel : Nat) :
    (Value.str ⟨s, true⟩).isStr = true
    ∧ (Value.str ⟨s, true⟩).hasHtmlDunder = true
    ∧ dispatch (.str ⟨s, true⟩) = .strB
    ∧ node_from_value_async (fuel + 1) (.str ⟨s, true⟩) = .ok (.text ⟨s, true⟩)
    ∧ node_to_str (.text ⟨s, true⟩) = .ok s
    ∧ render_chunks (.text ⟨s, true⟩) = .ok [s] := by
  refine ⟨rfl, rfl, rfl, ?_, ?_, ?_⟩
  · simp [node_from_value_async, awaited]
  · simp [node_to_str, escape_html_text]
  · simp [render_chunks, escape_html_text]

/-! ### C7 — normalizer totality over value shapes -/

theorem value_sizeOf_pos (v : Value) : 0 < sizeOf v := by
  cases v <;> simp <;> omega

theorem sizeOf_awaited_le (v : Value) : sizeOf (awaited v) ≤ sizeOf v := by
  cases v <;> simp [awaited] <;> omega

theorem shapeTotal_awaited (v : Value) (h : v.shapeTotal = true) :
    (awaited v).shapeTotal = true := by
  cases v <;> simp_all [awaited, Value.shapeTotal]

theorem node_from_value_async_unwrap (fuel : Nat) (w : Value)
    (hw : w.isCoroutine = false) :
    node_from_value_async (fuel + 1) (.coroutine w) =
      node_from_value_async (fuel + 1) w := by
  cases w
  · simp [Value.isCoroutine] at hw
  all_goals simp [node_from_value_async, awaited]

/-- Totality of the concurrent normalizer on shape-total values, proved with
the whole-list variant by strong induction on a size bound. -/
theorem node_from_value_async_total : ∀ k : Nat,
    (∀ v : Value, sizeOf v ≤ k → ∀ fuel, v.shapeTotal = true → sizeOf v ≤ fuel →
      ∃ n, node_from_value_async fuel v = .ok n)
    ∧ (∀ vs : List Value, sizeOf vs ≤ k → ∀ fuel, valuesShapeTotal vs = true →
      sizeOf vs ≤ fuel → ∃ ns, node_list_from_values_async fuel vs = .ok ns) := by
  intro k
  induction k using Nat.strong_induction_on with
  | _ k ih =>
    constructor
    · intro v hk fuel hshape hfuel
      have hpos := value_sizeOf_pos v
      obtain ⟨F, rfl⟩ : ∃ F, fuel = F + 1 := ⟨fuel - 1, by omega⟩
      cases v with
      | coroutine w =>
        have hsw : sizeOf w < sizeOf (Value.coroutine w) := by simp
        cases hcw : w.isCoroutine with
        | true =>
          obtain ⟨x, rfl⟩ : ∃ x, w = Value.coroutine x := by
            cases w
            case coroutine x => exact ⟨x, rfl⟩
            all_goals simp [Value.isCoroutine] at hcw
          exact ⟨.text ⟨defaultStr (Value.coroutine x), false⟩, by
            simp [node_from_value_async, awaited]⟩
        | false =>
          rw [node_from_value_async_unwrap F w hcw]
          have hw : w.shapeTotal = true := by
            simpa [Value.shapeTotal] using hshape
          exact (ih (sizeOf w) (by omega)).1 w le_rfl (F + 1) hw (by omega)
      | str s => exact ⟨.text s, by simp [node_from_value_async, awaited]⟩
      | node n => exact ⟨n, by simp [node_from_value_async, awaited]⟩
      | templ t interps => simp [Value.shapeTotal] at hshape
      | vfalse => exact ⟨.fragment [], by simp [node_from_value_async, awaited]⟩
      | vnone => exact ⟨.fragment [], by simp [node_from_value_async, awaited]⟩
      | vtrue => exact ⟨.text ⟨defaultStr .vtrue, false⟩, by
          simp [node_from_value_async, awaited]⟩
      | iterable vs =>
        have hsz : sizeOf vs < sizeOf (Value.iterable vs) := by simp
        have hvs : valuesShapeTotal vs = true := by
          simpa [Value.shapeTotal] using hshape
        obtain ⟨ns, hns⟩ := (ih (sizeOf vs) (by omega)).2 vs le_rfl F hvs (by
          simp at hfuel; omega)
        exact ⟨.fragment ns, by simp [node_from_value_async, awaited, hns, Except.map]⟩
      | htmlObj h => exact ⟨.text ⟨h, true⟩, by simp [node_from_value_async, awaited]⟩
      | callable info result =>
        obtain ⟨⟨h1, h2⟩, h3⟩ : (info.requires_positional = false ∧
            info.required_named_params = []) ∧ result.shapeTotal = true := by
          simpa [Value.shapeTotal, Bool.and_eq_true] using hshape
        have hres : (awaited result).shapeTotal = true :=
          shapeTotal_awaited result h3
        have hszr : sizeOf (awaited result) ≤ sizeOf result := sizeOf_awaited_le result
        have hsz : sizeOf result < sizeOf (Value.callable info result) := by simp
        have hfr : sizeOf (awaited result) ≤ F := by
          simp at hfuel; omega
        obtain ⟨n, hn⟩ := (ih (sizeOf result) (by omega)).1 (awaited result)
          (by omega) F hres hfr
        refine ⟨n, ?_⟩
        simp [node_from_value_async, awaited, h1, h2]
        exact hn
      | other s => exact ⟨.text ⟨defaultStr (.other s), false⟩, by
          simp [node_from_value_async, awaited]⟩
    · intro vs hk fuel hshape hfuel
      cases vs with
      | nil => exact ⟨[], by simp [node_list_from_values_async]⟩
      | cons v rest =>
        have hpos : 1 + sizeOf v + sizeOf rest ≤ fuel := by
          simpa using hfuel
        obtain ⟨F, rfl⟩ : ∃ F, fuel = F + 1 := ⟨fuel - 1, by
          have := value_sizeOf_pos v; omega⟩
        have hsh : v.shapeTotal = true ∧ valuesShapeTotal rest = true := by
          simpa [valuesShapeTotal, Bool.and_eq_true] using hshape
        have hrestpos : 1 ≤ sizeOf rest := by
          cases rest <;> simp <;> omega
        obtain ⟨n, hn⟩ := (ih (sizeOf v) (by simp at hk; omega)).1 v le_rfl F hsh.1
          (by omega)
        obtain ⟨ns, hns⟩ := (ih (sizeOf rest) (by simp at hk; omega)).2 rest le_rfl
          (F + 1) hsh.2 (by omega)
        refine ⟨n :: ns, ?_⟩
        simp [node_list_from_values_async, hn, hns, Except.bind]
        rfl

theorem branch_order (w : Value) (hw : w.isCoroutine = false) :
    branchOf w = dispatch w := by
  cases w
  · simp [Value.isCoroutine] at hw
  all_goals rfl

/-- C7: the asynchronous value normalizer is total over value shapes — on any
value whose embedded callables are zero-argument invocable and which carries
no nested template (whose resolution can fail for reasons in the invocation
error class, never a type-dispatch error), normalization returns a `Node`;
the implementation's branch for each shape agrees with the contractual
dispatch order (string, node, nested template, false/absent, iterable,
safe-markup object, callable, fallback); and a value matching none of the
shapes falls through to the fallback and is wrapped as `Text` of its default
text representation (e.g. `True`). -/
theorem c7_normalizer_totality (v : Value) (fuel : Nat)
    (hshape : v.shapeTotal = true) (hfuel : sizeOf v ≤ fuel) :
    (∃ n, node_from_value_async fuel v = .ok n)
    ∧ (∀ w : Value, w.isCoroutine = false → branchOf w = dispatch w)
    ∧ (∀ s, node_from_value_async fuel (.other s) = .ok (.text ⟨s, false⟩))
    ∧ node_from_value_async fuel .vtrue = .ok (.text ⟨"True", false⟩) := by
  obtain ⟨F, rfl⟩ : ∃ F, fuel = F + 1 := ⟨fuel - 1, by
    have := value_sizeOf_pos v; omega⟩
  refine ⟨(node_from_value_async_total (sizeOf v)).1 v le_rfl (F + 1) hshape hfuel,
    branch_order, ?_, ?_⟩
  · intro s; simp [node_from_value_async, awaited, defaultStr]
  · simp [node_from_value_async, awaited, defaultStr]

/-- Witness for C7 at a concrete mixed-shape value: an iterable holding a
string, `False`, a zero-argument callable returning an object, and a `True`
that exercises the fallback. -/
theorem c7_witness :
    (∃ n, node_from_value_async 20
      (.iterable [.vfalse, .callable ⟨false, [], false, []⟩ .vnone, .vtrue]) = .ok n)
    ∧ (∀ w : Value, w.isCoroutine = false → branchOf w = dispatch w)
    ∧ (∀ s, node_from_value_async 20 (.other s) = .ok (.text ⟨s, false⟩))
    ∧ node_from_value_async 20 .vtrue = .ok (.text ⟨"True", false⟩) :=
  c7_normalizer_totality
    (.iterable [.vfalse, .callable ⟨false, [], false, []⟩ .vnone, .vtrue]) 20
    (by simp [Value.shapeTotal, valuesShapeTotal])
    (by simp)

/-! ### C2 — chunked serialization refines eager serialization -/

theorem except_map_eq_error {ε α β : Type} (f : α → β) (x : Except ε α) (e : ε)
    (h : x.map f = .error e) : x = .error e := by
  cases x <;> simp_all [Except.map]

theorem except_map_eq_ok {ε α β : Type} (f : α → β) (x : Except ε α) (b : β)
    (h : x.map f = .ok b) : ∃ a, x = .ok a ∧ f a = b := by
  cases x <;> simp_all [Except.map]

theorem except_bind_error {ε α β : Type} (e : ε) (f : α → Except ε β) :
    (Except.error e : Except ε α) >>= f = .error e := rfl

theorem except_bind_ok {ε α β : Type} (a : α) (f : α → Except ε β) :
    (Except.ok a : Except ε α) >>= f = f a := rfl

theorem except_map_error {ε α β : Type} (f : α → β) (e : ε) :
    (Except.error e : Except ε α).map f = .error e := rfl

theorem except_map_ok {ε α β : Type} (f : α → β) (a : α) :
    (Except.ok a : Except ε α).map f = .ok (f a) := rfl

theorem string_data_inj (a b : String) (h : a.data = b.data) : a = b := by
  cases a; cases b; exact congrArg String.mk h

theorem chunks_list_spec (cs : List Node)
    (hp : ∀ c ∈ cs, (render_chunks c).map String.join = node_to_str c ∧
      (∀ out, render_chunks c = .ok out → out.length = chunk_count c)) :
    (render_chunks_list cs).map String.join = (nodes_to_str cs).map String.join
    ∧ (∀ out, render_chunks_list cs = .ok out → out.length = chunk_count_list cs) := by
  induction cs with
  | nil =>
    refine ⟨by simp [render_chunks_list, nodes_to_str], ?_⟩
    intro out h
    simp only [render_chunks_list] at h
    cases h
    rfl
  | cons c rest ih =>
    have hc := hp c (List.mem_cons_self c rest)
    have hrest := ih fun x hx => hp x (List.mem_cons_of_mem c hx)
    cases hrc : render_chunks c with
    | error e =>
      have hns : node_to_str c = .error e := by rw [← hc.1, hrc]; rfl
      refine ⟨?_, ?_⟩
      · simp [render_chunks_list, nodes_to_str, hrc, hns, except_bind_error, except_bind_ok, except_map_error, except_map_ok]
      · intro out h
        simp [render_chunks_list, hrc, except_bind_error, except_bind_ok, except_map_error, except_map_ok] at h
    | ok chs =>
      have hns : node_to_str c = .ok (String.join chs) := by
        rw [← hc.1, hrc]; rfl
      cases hrl : render_chunks_list rest with
      | error e =>
        have : (nodes_to_str rest).map String.join = .error e := by
          rw [← hrest.1, hrl]; rfl
        have hnr : nodes_to_str rest = .error e := except_map_eq_error _ _ _ this
        refine ⟨?_, ?_⟩
        · simp [render_chunks_list, nodes_to_str, hrc, hrl, hns, hnr, except_bind_error, except_bind_ok, except_map_error, except_map_ok,
            Except.map]
        · intro out h
          simp [render_chunks_list, hrc, hrl, except_bind_error, except_bind_ok, except_map_error, except_map_ok] at h
      | ok outs =>
        have : (nodes_to_str rest).map String.join = .ok (String.join outs) := by
          rw [← hrest.1, hrl]; rfl
        obtain ⟨strs, hnr, hjoin⟩ := except_map_eq_ok _ _ _ this
        refine ⟨?_, ?_⟩
        · simp [render_chunks_list, nodes_to_str, hrc, hrl, hns, hnr, except_bind_error, except_bind_ok, except_map_error, except_map_ok,
            Except.map, string_join_append, string_join_cons, hjoin]
        · intro out h
          simp only [render_chunks_list, hrc, hrl, except_bind_error, except_bind_ok, except_map_error, except_map_ok] at h
          cases h
          have hlen := hrest.2 outs hrl
          have hclen := hc.2 chs hrc
          simp [chunk_count_list, hclen, hlen]

theorem chunks_spec (n : Node) :
    (render_chunks n).map String.join = node_to_str n
    ∧ (∀ cs, render_chunks n = .ok cs → cs.length = chunk_count n) := by
  induction n using Node.induction with
  | htext s =>
    refine ⟨by simp [render_chunks, node_to_str, except_map_error, except_map_ok, string_join_singleton], ?_⟩
    intro cs h
    simp only [render_chunks] at h
    cases h
    rfl
  | hcomment t =>
    refine ⟨by simp [render_chunks, node_to_str, except_map_error, except_map_ok, string_join_singleton], ?_⟩
    intro cs h
    simp only [render_chunks] at h
    cases h
    rfl
  | hdoctype t =>
    refine ⟨by simp [render_chunks, node_to_str, except_map_error, except_map_ok, string_join_singleton], ?_⟩
    intro cs h
    simp only [render_chunks] at h
    cases h
    rfl
  | hfragment cs ih =>
    have hq := chunks_list_spec cs ih
    refine ⟨?_, ?_⟩
    · simp only [render_chunks, node_to_str]
      exact hq.1
    · intro out h
      simp only [render_chunks] at h
      simpa [chunk_count] using hq.2 out h
  | helement tag attrs cs ih =>
    have hq := chunks_list_spec cs ih
    by_cases hv : tag ∈ VOID_ELEMENTS
    · refine ⟨by simp [render_chunks, node_to_str, hv, except_map_error, except_map_ok,
        string_join_singleton], ?_⟩
      intro out h
      simp only [render_chunks] at h
      rw [if_pos hv] at h
      cases h
      simp [chunk_count, hv]
    · by_cases he : cs.isEmpty
      · refine ⟨?_, ?_⟩
        · simp [render_chunks, node_to_str, hv, he, except_map_error, except_map_ok, string_join_cons,
            string_join_singleton, String.append_assoc]
          apply string_data_inj
          simp only [String.data_append]
          rfl
        · intro out h
          simp only [render_chunks, if_neg hv, he, if_true] at h
          cases h
          simp [chunk_count, hv, he]
      · by_cases hs : tag = "script" ∨ tag = "style"
        · cases hct : children_to_str tag cs with
          | error e =>
            refine ⟨?_, ?_⟩
            · simp [render_chunks, node_to_str, hv, he, hs, hct, except_bind_error, except_bind_ok, except_map_error, except_map_ok]
            · intro out h
              simp [render_chunks, hv, he, hs, hct, except_bind_error, except_bind_ok, except_map_error, except_map_ok] at h
          | ok body =>
            refine ⟨?_, ?_⟩
            · simp [render_chunks, node_to_str, hv, he, hs, hct, except_bind_error, except_bind_ok, except_map_error, except_map_ok,
                string_join_cons, string_join_singleton, String.append_assoc]
              apply string_data_inj
              simp only [String.data_append]
              rfl
            · intro out h
              simp only [render_chunks, if_neg hv, he, hs, hct, except_bind_error, except_bind_ok, except_map_error, except_map_ok,
                if_false, if_true, Bool.false_eq_true] at h
              cases h
              simp [chunk_count, hv, he, hs]
        · cases hrl : render_chunks_list cs with
          | error e =>
            have : (nodes_to_str cs).map String.join = .error e := by
              rw [← hq.1, hrl]; rfl
            have hnr : nodes_to_str cs = .error e := except_map_eq_error _ _ _ this
            refine ⟨?_, ?_⟩
            · simp [render_chunks, node_to_str, children_to_str, hv, he, hs, hrl, hnr,
                except_bind_error, except_bind_ok, except_map_error, except_map_ok]
            · intro out h
              simp [render_chunks, hv, he, hs, hrl, except_bind_error, except_bind_ok, except_map_error, except_map_ok] at h
          | ok inner =>
            have : (nodes_to_str cs).map String.join = .ok (String.join inner) := by
              rw [← hq.1, hrl]; rfl
            obtain ⟨strs, hnr, hjoin⟩ := except_map_eq_ok _ _ _ this
            refine ⟨?_, ?_⟩
            · simp [render_chunks, node_to_str, children_to_str, hv, he, hs, hrl, hnr,
                except_bind_error, except_bind_ok, except_map_error, except_map_ok, string_join_append, string_join_cons,
                string_join_singleton, hjoin, String.append_assoc]
              apply string_data_inj
              simp only [String.data_append]
              rfl
            · intro out h
              simp only [render_chunks, if_neg hv, he, hs, hrl, except_bind_error, except_bind_ok, except_map_error, except_map_ok,
                Bool.false_eq_true, if_false, if_true] at h
              cases h
              have := hq.2 inner hrl
              simp [chunk_count, hv, he, hs, this]
              omega

/-- C2: for every Node tree, concatenating all chunks yielded by the chunk
producer `render_chunks` equals the eager serialization exactly (the two
also fail identically); and the chunk sequence has the promised structure —
one chunk per open tag, text node and close tag, a raw-text (script/style)
body as one bulk-escaped chunk, one chunk for each one-piece node kind. -/
theorem c2_chunks_concat (n : Node) :
    (render_chunks n).map String.join = node_to_str n
    ∧ (∀ cs, render_chunks n = .ok cs → cs.length = chunk_count n) :=
  chunks_spec n

/-- Witness for C2 at the nested-list example: `<ul><li>A</li><li>B</li></ul>`
streams as open, per-item open/text/close, close — eight chunks whose
concatenation is the eager serialization. -/
theorem c2_witness :
    (render_chunks (.element "ul" []
      [.element "li" [] [.text ⟨"A", false⟩],
       .element "li" [] [.text ⟨"B", false⟩]])).map String.join =
      node_to_str (.element "ul" []
        [.element "li" [] [.text ⟨"A", false⟩],
         .element "li" [] [.text ⟨"B", false⟩]])
    ∧ (8 : Nat) = chunk_count (.element "ul" []
        [.element "li" [] [.text ⟨"A", false⟩],
         .element "li" [] [.text ⟨"B", false⟩]]) := by
  have h := c2_chunks_concat (.element "ul" []
    [.element "li" [] [.text ⟨"A", false⟩],
     .element "li" [] [.text ⟨"B", false⟩]])
  refine ⟨h.1, ?_⟩
  have hc : render_chunks (.element "ul" []
      [.element "li" [] [.text ⟨"A", false⟩],
       .element "li" [] [.text ⟨"B", false⟩]]) =
      .ok ["<ul>", "<li>", "A", "</li>", "<li>", "B", "</li>", "</ul>"] := by
    simp [render_chunks, render_chunks_list, node_to_str, escape_html_text,
      escape_html_text_plain, escape_char, format_attributes, VOID_ELEMENTS,
      except_bind_error, except_bind_ok, except_map_error, except_map_ok, String.join]
    decide
  have := h.2 _ hc
  simpa using this

/-! ### C1 — concurrent resolution refines sequential resolution -/

theorem scatter_perm (n : Nat) (l1 l2 : List (Nat × Node))
    (hperm : l1.Perm l2) (hnodup : (l2.map Prod.fst).Nodup) :
    scatter n l1 = scatter n l2 := by
  unfold scatter
  refine hperm.foldl_eq' ?_ _
  intro x hx y hy z
  by_cases hxy : x = y
  · rw [hxy]
  · have hfst : x.1 ≠ y.1 := by
      intro hf
      exact hxy (List.inj_on_of_nodup_map hnodup (hperm.subset hx) (hperm.subset hy) hf)
    exact List.set_comm _ _ _ hfst

theorem set_take_succ (x : Node) : ∀ (arr : List Node) (k : Nat), k < arr.length →
    (arr.set k x).take (k + 1) = arr.take k ++ [x] := by
  intro arr
  induction arr with
  | nil => intro k hk; simp at hk
  | cons a as ih =>
    intro k hk
    cases k with
    | zero => simp
    | succ k' =>
      simp only [List.set_cons_succ, List.take_succ_cons, List.cons_append]
      rw [ih k' (by simpa using hk)]

theorem foldl_set_enumFrom : ∀ (l arr : List Node) (k : Nat),
    arr.length = k + l.length →
    List.foldl (fun a p => a.set p.1 p.2) arr (List.enumFrom k l) = arr.take k ++ l := by
  intro l
  induction l with
  | nil =>
    intro arr k hlen
    simp only [List.enumFrom, List.foldl_nil]
    rw [List.length_nil, Nat.add_zero] at hlen
    rw [← hlen, List.take_length, List.append_nil]
  | cons x xs ih =>
    intro arr k hlen
    simp only [List.enumFrom, List.foldl_cons]
    have hk : k < arr.length := by simp at hlen; omega
    have hlen' : (arr.set k x).length = (k + 1) + xs.length := by
      simp [List.length_set]; simp at hlen; omega
    rw [ih (arr.set k x) (k + 1) hlen', set_take_succ x arr k hk]
    simp [List.append_assoc]

theorem scatter_enum (l : List Node) : scatter l.length (List.enum l) = l := by
  unfold scatter
  have h := foldl_set_enumFrom l (List.replicate l.length (Node.fragment [])) 0
    (by simp)
  simpa using h

theorem values_syncSafe_getD (vs : List Value) (j : Nat)
    (h : valuesSyncSafe vs = true) : (vs.getD j Value.vnone).syncSafe = true := by
  induction vs generalizing j with
  | nil =>
    simp [List.getD, Value.syncSafe]
  | cons v rest ih =>
    have hh : v.syncSafe = true ∧ valuesSyncSafe rest = true := by
      simpa [valuesSyncSafe, Bool.and_eq_true] using h
    cases j with
    | zero => simpa [List.getD] using hh.1
    | succ j' =>
      have := ih j' hh.2
      simpa [List.getD] using this

theorem awaited_of_syncSafe (v : Value) (h : v.syncSafe = true) : awaited v = v := by
  cases v
  · simp [Value.syncSafe] at h
  all_goals rfl

theorem async_specs_cons_lit (s : String) (k : Nat) (rest : List RefPart) :
    async_specs_of (List.enumFrom k (RefPart.lit s :: rest)) =
      async_specs_of (List.enumFrom (k + 1) rest) := by
  simp [async_specs_of, List.enumFrom]

theorem async_specs_cons_interp (j k : Nat) (rest : List RefPart) :
    async_specs_of (List.enumFrom k (RefPart.interp j :: rest)) =
      (k, j) :: async_specs_of (List.enumFrom (k + 1) rest) := by
  simp [async_specs_of, List.enumFrom]

theorem sync_parts_cons_lit (s : String) (k : Nat) (rest : List RefPart) :
    sync_parts_of (List.enumFrom k (RefPart.lit s :: rest)) =
      (k, Node.text ⟨s, false⟩) :: sync_parts_of (List.enumFrom (k + 1) rest) := by
  simp [sync_parts_of, List.enumFrom]

theorem sync_parts_cons_interp (j k : Nat) (rest : List RefPart) :
    sync_parts_of (List.enumFrom k (RefPart.interp j :: rest)) =
      sync_parts_of (List.enumFrom (k + 1) rest) := by
  simp [sync_parts_of, List.enumFrom]

theorem enumFrom_cons_node (k : Nat) (x : Node) (l : List Node) :
    List.enumFrom k (x :: l) = (k, x) :: List.enumFrom (k + 1) l := rfl

theorem text_parts_agree : ∀ (parts : List RefPart) (F k : Nat) (interps : List Value),
    (∀ f, f < F → ∀ j : Nat,
      node_from_value_async f (format_interpolation (interps.getD j Value.vnone)) =
        node_from_value_seq f (format_interpolation (interps.getD j Value.vnone))) →
    (match run_text_tasks_async F (async_specs_of (List.enumFrom k parts)) interps,
           resolve_parts_seq F parts interps with
     | .ok atag, .ok l =>
        (sync_parts_of (List.enumFrom k parts) ++ atag).Perm (List.enumFrom k l)
          ∧ l.length = parts.length
     | .error e1, .error e2 => e1 = e2
     | _, _ => False) := by
  intro parts
  induction parts with
  | nil =>
    intro F k interps _hagree
    simp [run_text_tasks_async, resolve_parts_seq, async_specs_of, sync_parts_of,
      List.enumFrom]
  | cons p rest ih =>
    intro F k interps hagree
    cases p with
    | lit s =>
      have hih := ih F (k + 1) interps hagree
      rw [async_specs_cons_lit, sync_parts_cons_lit]
      cases hrun : run_text_tasks_async F
          (async_specs_of (List.enumFrom (k + 1) rest)) interps with
      | error e =>
        cases hseq : resolve_parts_seq F rest interps with
        | error e2 =>
          simp only [hrun, hseq] at hih
          simp only [resolve_parts_seq, hrun, hseq, except_bind_error]
          exact hih
        | ok l =>
          simp only [hrun, hseq] at hih
      | ok atag =>
        cases hseq : resolve_parts_seq F rest interps with
        | error e2 =>
          simp only [hrun, hseq] at hih
        | ok l =>
          simp only [hrun, hseq] at hih
          simp only [resolve_parts_seq, hrun, hseq, except_bind_error, except_bind_ok]
          refine ⟨?_, ?_⟩
          · rw [enumFrom_cons_node, List.cons_append]
            exact List.Perm.cons _ hih.1
          · simpa using hih.2
    | interp j =>
      cases F with
      | zero =>
        rw [async_specs_cons_interp]
        simp only [run_text_tasks_async, resolve_parts_seq]
      | succ F' =>
        rw [async_specs_cons_interp, sync_parts_cons_interp]
        have hv := hagree F' (Nat.lt_succ_self F') j
        cases hnf : node_from_value_async F'
            (format_interpolation (interps.getD j Value.vnone)) with
        | error e =>
          have hnfs : node_from_value_seq F'
              (format_interpolation (interps.getD j Value.vnone)) = .error e := by
            rw [← hv, hnf]
          simp only [run_text_tasks_async, resolve_parts_seq, hnf, hnfs,
            except_bind_error]
        | ok nd =>
          have hnfs : node_from_value_seq F'
              (format_interpolation (interps.getD j Value.vnone)) = .ok nd := by
            rw [← hv, hnf]
          have hih := ih (F' + 1) (k + 1) interps hagree
          simp only [run_text_tasks_async, resolve_parts_seq, hnf, hnfs,
            except_bind_error, except_bind_ok]
          cases hrun : run_text_tasks_async (F' + 1)
              (async_specs_of (List.enumFrom (k + 1) rest)) interps with
          | error e =>
            cases hseq : resolve_parts_seq (F' + 1) rest interps with
            | error e2 =>
              simp only [hrun, hseq] at hih
              simp only [hseq, except_bind_error]
              exact hih
            | ok l =>
              simp only [hrun, hseq] at hih
          | ok atag =>
            cases hseq : resolve_parts_seq (F' + 1) rest interps with
            | error e2 =>
              simp only [hrun, hseq] at hih
            | ok l =>
              simp only [hrun, hseq] at hih
              simp only [hseq, except_bind_ok]
              refine ⟨?_, ?_⟩
              · rw [enumFrom_cons_node]
                exact List.Perm.trans List.perm_middle (List.Perm.cons _ hih.1)
              · simpa using hih.2

theorem nfva_succ_callable (F : Nat) (info : CallableInfo) (result : Value) :
    node_from_value_async (F + 1) (.callable info result) =
      if info.requires_positional || !info.required_named_params.isEmpty then
        .error (.typeError "missing required arguments in zero-argument call")
      else node_from_value_async F (awaited result) := by
  simp only [node_from_value_async]
  rfl

theorem nfvs_succ_callable (F : Nat) (info : CallableInfo) (result : Value) :
    node_from_value_seq (F + 1) (.callable info result) =
      if info.requires_positional || !info.required_named_params.isEmpty then
        .error (.typeError "missing required arguments in zero-argument call")
      else node_from_value_seq F result := by
  simp only [node_from_value_seq]

/-- The two resolution engines agree, function by function, on
coroutine-free input, at every recursion budget. -/
theorem engines_agree : ∀ F : Nat,
    (∀ v : Value, v.syncSafe = true →
      node_from_value_async F v = node_from_value_seq F v)
    ∧ (∀ vs : List Value, valuesSyncSafe vs = true →
      node_list_from_values_async F vs = node_list_from_values_seq F vs)
    ∧ (∀ (t : TNode) (interps : List Value), valuesSyncSafe interps = true →
      html_async F t interps = html_seq F t interps)
    ∧ (∀ (t : TNode) (interps : List Value), valuesSyncSafe interps = true →
      resolve_t_node_async F t interps = resolve_t_node_seq F t interps)
    ∧ (∀ (ts : List TNode) (interps : List Value), valuesSyncSafe interps = true →
      substitute_and_flatten_children_async F ts interps =
        substitute_and_flatten_children_seq F ts interps)
    ∧ (∀ (ts : List TNode) (interps : List Value), valuesSyncSafe interps = true →
      resolve_t_node_list_async F ts interps = resolve_t_node_list_seq F ts interps)
    ∧ (∀ (ref : TemplateRef) (interps : List Value), valuesSyncSafe interps = true →
      resolve_t_text_ref_async F ref interps = resolve_t_text_ref_seq F ref interps)
    ∧ (∀ (attrs : List (String × Value)) (children : List Node) (interp : Value),
      interp.syncSafe = true →
      invoke_component_async F attrs children interp =
        invoke_component_seq F attrs children interp) := by
  intro F
  induction F using Nat.strong_induction_on with
  | _ F ih =>
    cases F with
    | zero =>
      refine ⟨?_, ?_, ?_, ?_, ?_, ?_, ?_, ?_⟩
      · intro v _; simp [node_from_value_async, node_from_value_seq]
      · intro vs _
        cases vs <;> simp [node_list_from_values_async, node_list_from_values_seq]
      · intro t interps _; simp [html_async, html_seq]
      · intro t interps _; simp [resolve_t_node_async, resolve_t_node_seq]
      · intro ts interps _
        simp [substitute_and_flatten_children_async, substitute_and_flatten_children_seq]
      · intro ts interps _
        cases ts <;> simp [resolve_t_node_list_async, resolve_t_node_list_seq]
      · intro ref interps _; simp [resolve_t_text_ref_async, resolve_t_text_ref_seq]
      · intro attrs children interp _
        simp [invoke_component_async, invoke_component_seq]
    | succ F1 =>
      obtain ⟨ihA1, ihA2, ihA3, ihA4, ihA5, ihA6, ihA7, ihA8⟩ :=
        ih F1 (Nat.lt_succ_self F1)
      refine ⟨?_, ?_, ?_, ?_, ?_, ?_, ?_, ?_⟩
      · -- node_from_value
        intro v hs
        cases v with
        | coroutine w => simp [Value.syncSafe] at hs
        | str s => simp [node_from_value_async, node_from_value_seq, awaited]
        | node n => simp [node_from_value_async, node_from_value_seq, awaited]
        | templ t interps' =>
          have hsi : valuesSyncSafe interps' = true := by
            simpa [Value.syncSafe] using hs
          simp only [node_from_value_async, node_from_value_seq, awaited]
          exact ihA3 t interps' hsi
        | vfalse => simp [node_from_value_async, node_from_value_seq, awaited]
        | vnone => simp [node_from_value_async, node_from_value_seq, awaited]
        | vtrue => simp [node_from_value_async, node_from_value_seq, awaited]
        | iterable vs =>
          have hsv : valuesSyncSafe vs = true := by
            simpa [Value.syncSafe] using hs
          simp only [node_from_value_async, node_from_value_seq, awaited]
          rw [ihA2 vs hsv]
        | htmlObj h => simp [node_from_value_async, node_from_value_seq, awaited]
        | callable info result =>
          have hsr : result.syncSafe = true := by
            simpa [Value.syncSafe] using hs
          rw [nfva_succ_callable, nfvs_succ_callable, awaited_of_syncSafe result hsr,
            ihA1 result hsr]
        | other s => simp [node_from_value_async, node_from_value_seq, awaited]
      · -- node_list_from_values
        intro vs
        induction vs with
        | nil =>
          intro _
          simp [node_list_from_values_async, node_list_from_values_seq]
        | cons v rest ihl =>
          intro hsv
          have h2 : v.syncSafe = true ∧ valuesSyncSafe rest = true := by
            simpa [valuesSyncSafe, Bool.and_eq_true] using hsv
          simp only [node_list_from_values_async, node_list_from_values_seq]
          rw [ihA1 v h2.1, ihl h2.2]
      · -- html
        intro t interps hsi
        simp only [html_async, html_seq]
        exact ihA4 t interps hsi
      · -- resolve_t_node
        intro t interps hsi
        cases t with
        | ttext ref =>
          simp only [resolve_t_node_async, resolve_t_node_seq]
          exact ihA7 ref interps hsi
        | tcomment ref => simp [resolve_t_node_async, resolve_t_node_seq]
        | tdoctype text => simp [resolve_t_node_async, resolve_t_node_seq]
        | tfragment children =>
          simp only [resolve_t_node_async, resolve_t_node_seq]
          rw [ihA5 children interps hsi]
        | telement tag attrs children =>
          simp only [resolve_t_node_async, resolve_t_node_seq]
          rw [ihA5 children interps hsi]
        | tcomponent s e attrs children =>
          simp only [resolve_t_node_async, resolve_t_node_seq]
          rw [ihA5 children interps hsi]
          cases hsub : substitute_and_flatten_children_seq F1 children interps with
          | error e2 => simp [except_bind_error]
          | ok rc =>
            simp only [except_bind_ok]
            cases e with
            | none =>
              simp only [Option.map_none']
              exact ihA8 (resolve_t_attrs attrs interps) rc _
                (values_syncSafe_getD interps s hsi)
            | some ei =>
              simp only [Option.map_some']
              cases hvb : valueBEq (interps.getD ei Value.vnone) (interps.getD s Value.vnone) with
              | false => simp [hvb]
              | true =>
                simp only [hvb, Bool.not_true, Bool.false_eq_true, if_false]
                exact ihA8 (resolve_t_attrs attrs interps) rc _
                  (values_syncSafe_getD interps s hsi)
      · -- substitute_and_flatten
        intro ts interps hsi
        simp only [substitute_and_flatten_children_async,
          substitute_and_flatten_children_seq]
        rw [ihA6 ts interps hsi]
      · -- resolve_t_node_list
        intro ts
        induction ts with
        | nil =>
          intro interps _
          simp [resolve_t_node_list_async, resolve_t_node_list_seq]
        | cons t rest ihl =>
          intro interps hsi
          simp only [resolve_t_node_list_async, resolve_t_node_list_seq]
          rw [ihA4 t interps hsi, ihl interps hsi]
      · -- resolve_t_text_ref
        intro ref interps hsi
        have hagree : ∀ f, f < F1 → ∀ j : Nat,
            node_from_value_async f (format_interpolation (interps.getD j Value.vnone)) =
              node_from_value_seq f (format_interpolation (interps.getD j Value.vnone)) := by
          intro f hf j
          exact (ih f (Nat.lt_succ_of_lt hf)).1 _
            (values_syncSafe_getD interps j hsi)
        have hmaster := text_parts_agree ref.parts F1 0 interps hagree
        have henum : ref.parts.enum = List.enumFrom 0 ref.parts := rfl
        simp only [resolve_t_text_ref_async, resolve_t_text_ref_seq]
        cases hlit : ref.litOnly with
        | true => simp
        | false =>
          simp only [Bool.false_eq_true, if_false]
          rw [henum]
          cases hrun : run_text_tasks_async F1
              (async_specs_of (List.enumFrom 0 ref.parts)) interps with
          | error e =>
            cases hseq : resolve_parts_seq F1 ref.parts interps with
            | error e2 =>
              simp only [hrun, hseq] at hmaster
              subst hmaster
              simp [hrun, hseq, except_bind_error]
            | ok l =>
              simp only [hrun, hseq] at hmaster
          | ok atag =>
            cases hseq : resolve_parts_seq F1 ref.parts interps with
            | error e2 =>
              simp only [hrun, hseq] at hmaster
            | ok l =>
              simp only [hrun, hseq] at hmaster
              have hnodup : ((List.enumFrom 0 l).map Prod.fst).Nodup := by
                rw [List.enumFrom_map_fst]
                exact List.nodup_range' 0 l.length
              have hscatter :
                  scatter (List.enumFrom 0 ref.parts).length
                    (sync_parts_of (List.enumFrom 0 ref.parts) ++ atag) = l := by
                rw [scatter_perm _ _ _ hmaster.1 hnodup]
                have hlen1 : (List.enumFrom 0 ref.parts).length = l.length := by
                  simp [hmaster.2]
                rw [hlen1]
                have : List.enumFrom 0 l = List.enum l := rfl
                rw [this, scatter_enum]
              simp only [hrun, hseq, except_bind_ok, hscatter]
      · -- invoke_component
        intro attrs children interp hsi
        cases interp with
        | callable info result =>
          have hsr : result.syncSafe = true := by
            simpa [Value.syncSafe] using hsi
          simp only [invoke_component_async, invoke_component_seq, format_interpolation]
          rw [awaited_of_syncSafe result hsr, ihA1 result hsr]
        | coroutine w => simp [Value.syncSafe] at hsi
        | str s => simp [invoke_component_async, invoke_component_seq, format_interpolation]
        | node n => simp [invoke_component_async, invoke_component_seq, format_interpolation]
        | templ t i => simp [invoke_component_async, invoke_component_seq, format_interpolation]
        | vfalse => simp [invoke_component_async, invoke_component_seq, format_interpolation]
        | vnone => simp [invoke_component_async, invoke_component_seq, format_interpolation]
        | vtrue => simp [invoke_component_async, invoke_component_seq, format_interpolation]
        | iterable vs => simp [invoke_component_async, invoke_component_seq, format_interpolation]
        | htmlObj h => simp [invoke_component_async, invoke_component_seq, format_interpolation]
        | other s => simp [invoke_component_async, invoke_component_seq, format_interpolation]

/-- C1: for every representable (coroutine-free) placeholder tree and
interpolation sequence, concurrent resolution (`html_async` followed by
serialization) produces output byte-identical to sequential resolution's
output — the resolved trees themselves are equal — and the fan-in reassembly
that writes interpolated text parts back at their original indices is
invariant under the order in which sibling results complete: any permutation
of the tagged results scatters to the same children array. -/
theorem c1_concurrent_equals_sequential (fuel : Nat) (t : TNode)
    (interps : List Value) (hsafe : valuesSyncSafe interps = true)
    (n : Nat) (completed canonical : List (Nat × Node))
    (hperm : completed.Perm canonical)
    (hnodup : (canonical.map Prod.fst).Nodup) :
    (html_async fuel t interps).bind node_to_str =
      (html_seq fuel t interps).bind node_to_str
    ∧ html_async fuel t interps = html_seq fuel t interps
    ∧ scatter n completed = scatter n canonical := by
  have h := (engines_agree fuel).2.2.1 t interps hsafe
  exact ⟨by rw [h], h, scatter_perm n completed canonical hperm hnodup⟩

/-- Witness for C1 at text parts `{x}{y}` with two interpolations: the
concurrent and sequential serializations agree (both produce `AB`), and a
completion order delivering the second text part first still scatters into
source order. -/
theorem c1_witness :
    ((html_async 9 (.ttext ⟨[.interp 0, .interp 1]⟩)
        [.str ⟨"A", false⟩, .str ⟨"B", false⟩]).bind node_to_str =
      (html_seq 9 (.ttext ⟨[.interp 0, .interp 1]⟩)
        [.str ⟨"A", false⟩, .str ⟨"B", false⟩]).bind node_to_str)
    ∧ scatter 2 [(1, Node.text ⟨"B", false⟩), (0, Node.text ⟨"A", false⟩)] =
        scatter 2 [(0, Node.text ⟨"A", false⟩), (1, Node.text ⟨"B", false⟩)]
    ∧ (html_async 9 (.ttext ⟨[.interp 0, .interp 1]⟩)
        [.str ⟨"A", false⟩, .str ⟨"B", false⟩]).bind node_to_str = .ok "AB" := by
  obtain ⟨h1, _h2, h3⟩ := c1_concurrent_equals_sequential 9
    (.ttext ⟨[.interp 0, .interp 1]⟩)
    [.str ⟨"A", false⟩, .str ⟨"B", false⟩]
    (by simp [valuesSyncSafe, Value.syncSafe])
    2 [(1, Node.text ⟨"B", false⟩), (0, Node.text ⟨"A", false⟩)]
    [(0, Node.text ⟨"A", false⟩), (1, Node.text ⟨"B", false⟩)]
    (by decide) (by decide)
  refine ⟨h1, h3, ?_⟩
  have hget : ([Value.str ⟨"A", false⟩, Value.str ⟨"B", false⟩] : List Value)[1] =
      Value.str ⟨"B", false⟩ := rfl
  simp [hget, html_async, resolve_t_node_async, substitute_and_flatten_children_async,
    resolve_t_node_list_async, resolve_t_text_ref_async, run_text_tasks_async,
    node_from_value_async, awaited, TemplateRef.litOnly, sync_parts_of, async_specs_of,
    scatter, flatten_nodes, flatten_one, resolve_attrs, format_interpolation,
    mkElement, VOID_ELEMENTS, List.enum, List.enumFrom, List.getD,
    List.getElem?_cons_succ, List.getElem?_cons_zero,
    List.getElem_cons_succ, List.getElem_cons_zero, except_bind_error,
    except_bind_ok, except_map_error, except_map_ok, node_to_str, nodes_to_str,
    children_to_str, escape_html_text, escape_html_text_plain, escape_char,
    format_attributes, String.join, Except.bind]
  decide

end Tdom
